import Mathlib

/-!
Verification of the claude-export repository (scripts/export-chat.js,
scripts/export-continue.js) against its natural-language specification.

The JavaScript sources are shallowly embedded: JS strings are modelled as
`List Char` (a sequence of code units), JS objects with known fields as Lean
structures with `Option` fields for possibly-absent keys, JS object maps as
insertion-ordered association lists with update-in-place semantics, and epoch
timestamps as `Int` milliseconds.  External boundaries (the filesystem, git
subprocesses, the wall clock) are passed to the embedded functions as explicit
arguments.
-/

/-- A JS string, modelled as its sequence of code units. -/
abbrev Str := List Char

/-- JS string truthiness for a possibly-absent string field:
`undefined`, `null` and `""` are falsy. -/
def truthyStr (o : Option Str) : Bool :=
  match o with
  | none => false
  | some s => !s.isEmpty

/-- JS number truthiness for a possibly-absent numeric field: `0` is falsy. -/
def truthyNum (o : Option Int) : Bool :=
  match o with
  | none => false
  | some n => n != 0

/-- The whitespace characters recognised by `String.prototype.trim` that can
occur in the logs (ASCII whitespace). -/
def wsChar (c : Char) : Bool :=
  c == ' ' || c == '\t' || c == '\n' || c == '\r' || c == '\x0b' || c == '\x0c'

/-- JS `s.trim()`. -/
def jsTrim (s : Str) : Str :=
  ((s.dropWhile wsChar).reverse.dropWhile wsChar).reverse

/-- JS `s.split(c)` for a single-character separator. -/
def jsSplit (c : Char) : Str → List Str
  | [] => [[]]
  | x :: xs =>
    match jsSplit c xs with
    | [] => [[x]]
    | h :: t => if x == c then [] :: h :: t else (x :: h) :: t

/-- JS `parts.join("\n")`, as used on the markdown `parts` array. -/
def joinNL : List Str → Str
  | [] => []
  | [x] => x
  | x :: y :: t => x ++ '\n' :: joinNL (y :: t)

/-- Index of the first occurrence of `pat` inside `s` (`s.indexOf(pat)`),
`none` when absent. -/
def firstOccur (pat : Str) : Str → Option Nat
  | [] => if pat.isEmpty then some 0 else none
  | x :: xs =>
    if pat.isPrefixOf (x :: xs) then some 0
    else (firstOccur pat xs).map (· + 1)

/-- Index of the last occurrence of `pat` inside `s` (`s.lastIndexOf(pat)`). -/
def lastOccur (pat s : Str) : Option Nat :=
  (((List.range (s.length + 1)).filter (fun i => pat.isPrefixOf (s.drop i)))).getLast?

/-- One global pass of `s.replace(new RegExp(open + "[\\s\\S]*?" + close, "g"), "")`:
each match starts at an occurrence of the opening tag and extends, non-greedily,
to the earliest following occurrence of the closing tag; matches are removed
left to right.  The `Nat` argument is recursion fuel (the input length suffices,
since every removal consumes at least the opening tag). -/
def removeTaggedAux (openT closeT : Str) : Nat → Str → Str
  | 0, s => s
  | fuel + 1, s =>
    match firstOccur openT s with
    | none => s
    | some i =>
      let pre := s.take i
      let rest := s.drop (i + openT.length)
      match firstOccur closeT rest with
      | none => s
      | some j => pre ++ removeTaggedAux openT closeT fuel (rest.drop (j + closeT.length))

/-- Remove every `openT ... closeT` span from `s` (non-greedy, global). -/
def removeTagged (openT closeT s : Str) : Str :=
  removeTaggedAux openT closeT s.length s

/-- `stripSystemTags` from both exporter scripts: strips the six machinery tag
pairs and trims the result. -/
def stripSystemTags (text : Str) : Str :=
  jsTrim
    (removeTagged ("<command-name>").toList ("</command-name>").toList
      (removeTagged ("<command-message>").toList ("</command-message>").toList
        (removeTagged ("<user-prompt-submit-hook>").toList ("</user-prompt-submit-hook>").toList
          (removeTagged ("<ide_selection>").toList ("</ide_selection>").toList
            (removeTagged ("<ide_opened_file>").toList ("</ide_opened_file>").toList
              (removeTagged ("<system-reminder>").toList ("</system-reminder>").toList text))))))

/-- `truncate` from scripts/export-continue.js: budget-capped prefix with an
ellipsis marker.  (The JS guard `!text` returns `""` for an empty input, which
coincides with returning the input itself.) -/
def truncate (text : Str) (max : Nat) : Str :=
  if text.length ≤ max then text else text.take max ++ ("...").toList

/-- `truncate` applied to a possibly-absent string (`truncate(undefined, n)`
evaluates to `""` in the script). -/
def truncateOpt (text : Option Str) (max : Nat) : Str :=
  truncate (text.getD []) max

/-- Decimal rendering of a natural number. -/
def natStr (n : Nat) : Str := (Nat.repr n).toList

/-- Decimal rendering of an integer. -/
def intStr (n : Int) : Str :=
  if n < 0 then '-' :: natStr n.natAbs else natStr n.toNat

/-! ## Data model of a parsed log record

One line of the JSONL log, as consumed by the exporters.  Unknown fields are
irrelevant to every function below and are therefore not represented. -/

/-- A todo item inside a `TodoWrite` invocation's `todos` array. -/
structure Todo where
  status : Str
  content : Str
deriving DecidableEq, Repr

/-- An option of an `AskUserQuestion` question. -/
structure QOption where
  label : Str
  description : Option Str
deriving DecidableEq, Repr

/-- A question inside an `AskUserQuestion` invocation. -/
structure Question where
  question : Str
  options : Option (List QOption)
deriving DecidableEq, Repr

/-- The `input` payload of a `tool_use` block.  Every field the two scripts
ever read is listed; a field absent from the JSON is `none`. -/
structure ToolInput where
  command : Option Str
  description : Option Str
  file_path : Option Str
  content : Option Str
  old_string : Option Str
  new_string : Option Str
  replace_all : Option Bool
  pattern : Option Str
  path : Option Str
  glob : Option Str
  output_mode : Option Str
  todos : Option (List Todo)
  prompt : Option Str
  subagent_type : Option Str
  offset : Option Int
  limit : Option Int
  url : Option Str
  query : Option Str
  model : Option Str
  notebook_path : Option Str
  cell_type : Option Str
  edit_mode : Option Str
  new_source : Option Str
  questions : Option (List Question)
deriving DecidableEq, Repr

/-- A `ToolInput` with every field absent. -/
def emptyInput : ToolInput :=
  ⟨none, none, none, none, none, none, none, none, none, none, none, none,
   none, none, none, none, none, none, none, none, none, none, none, none⟩

/-- The `content` of a `tool_result` block: either a JSON string, or any other
JSON value, of which the scripts only ever use the `JSON.stringify` rendering
(carried here as the opaque serialized text). -/
inductive RContent where
  | str (s : Str)
  | other (serialized : Str)
deriving DecidableEq, Repr

/-- The branch `typeof block.content === "string" ? block.content :
JSON.stringify(block.content)` from `buildToolResultMap`. -/
def rcString : RContent → Str
  | .str s => s
  | .other j => j

/-- One typed block of a record's `message.content` array. -/
inductive Block where
  | text (t : Str)
  | thinking (t : Str)
  | toolUse (name : Str) (id : Option Str) (input : ToolInput)
  | toolResult (tool_use_id : Option Str) (content : RContent) (is_error : Option Bool)
  | image
  | otherBlock
deriving DecidableEq, Repr

/-- Whether a block is a `tool_result` block (`c.type === "tool_result"`). -/
def isToolResultBlock : Block → Bool
  | .toolResult _ _ _ => true
  | _ => false

/-- Whether a block is a `tool_use` block. -/
def isToolUseBlock : Block → Bool
  | .toolUse _ _ _ => true
  | _ => false

/-- The `message` object of a record.  `content` is `some blocks` when the JSON
value is an array of blocks and `none` otherwise (absent or non-array). -/
structure Message where
  role : Str
  content : Option (List Block)
deriving DecidableEq, Repr

/-- One parsed log record.  `timestamp` is epoch milliseconds (`new
Date(ts).getTime()`); `none` models an absent or empty timestamp. -/
structure Entry where
  type : Str
  timestamp : Option Int
  message : Option Message
deriving DecidableEq, Repr

/-- `entry.message?.content` when it is an array, else `none`. -/
def blocksOf (e : Entry) : Option (List Block) :=
  e.message.bind (·.content)

/-- `entry.message?.role`. -/
def roleOf (e : Entry) : Option Str :=
  e.message.map (·.role)

/-! ## Insertion-ordered maps (JS plain objects keyed by strings) -/

/-- Assign `map[k] = v` on an insertion-ordered association list: an existing
key keeps its position and gets the new value, a fresh key is appended. -/
def objInsert (k : Str) (v : α) : List (Str × α) → List (Str × α)
  | [] => [(k, v)]
  | (k', v') :: rest =>
    if k = k' then (k, v) :: rest else (k', v') :: objInsert k v rest

/-- Read `map[k]` from an insertion-ordered association list. -/
def objLookup (k : Str) : List (Str × α) → Option α
  | [] => none
  | (k', v') :: rest => if k = k' then some v' else objLookup k rest

/-- JS `Set.prototype.add`: append if not already present. -/
def addUnique [DecidableEq α] (xs : List α) (x : α) : List α :=
  if x ∈ xs then xs else xs ++ [x]

/-! ## Causal correlator: buildToolResultMap -/

/-- The value stored in the tool-result map. -/
structure TRVal where
  content : Str
  is_error : Bool
deriving DecidableEq, Repr

/-- The `(tool_use_id, value)` pair a `tool_result` block contributes, when its
`tool_use_id` is truthy. -/
def trPairOf : Block → Option (Str × TRVal)
  | .toolResult tid c er =>
    if truthyStr tid then some (tid.getD [], ⟨rcString c, er.getD false⟩) else none
  | _ => none

/-- `buildToolResultMap` (identical in both scripts): one pass over all
records; every `tool_result` block found inside a record of type `"user"` with
an array `content` registers its outcome under its correlation id, a repeated
id overwriting the previous outcome. -/
def buildToolResultMap (entries : List Entry) : List (Str × TRVal) :=
  entries.foldl
    (fun map e =>
      if e.type = ("user").toList then
        match blocksOf e with
        | some content =>
          content.foldl
            (fun m b => match trPairOf b with
              | some (k, v) => objInsert k v m
              | none => m)
            map
        | none => map
      else map)
    []

/-- All `(id, outcome)` pairs of the log, in file order, before any
deduplication: the flat sequence the map is built from. -/
def toolResultList (entries : List Entry) : List (Str × TRVal) :=
  entries.flatMap
    (fun e =>
      if e.type = ("user").toList then
        match blocksOf e with
        | some content => content.filterMap trPairOf
        | none => []
      else [])

/-! ## Active-stream selector (getLastEntryTimestamp and the session pick in main)

A candidate session file is modelled at line granularity: each raw line
carries its byte length and the result of `JSON.parse` on it (`none` when the
line does not parse; `some ts` when it parses to a record whose `timestamp`
field, converted by `new Date(...).getTime()`, is `ts`; `some none` when the
record parses but carries no truthy timestamp).  A line only partially
contained in the trailing byte window is a proper suffix of a JSON line and is
modelled as failing to parse. -/

/-- One raw line of a candidate JSONL file. -/
structure RawLine where
  len : Nat
  parse : Option (Option Int)
deriving DecidableEq, Repr

/-- The timestamp a line contributes to the backward scan: it must parse and
carry a truthy `timestamp` (`if (entry.timestamp)`, so a zero timestamp is
skipped like an absent one). -/
def rawLineTs (l : RawLine) : Option Int :=
  match l.parse with
  | some (some t) => if t = 0 then none else some t
  | _ => none

/-- A candidate session file: its lines (joined by single newline bytes) and
its filesystem modification time in epoch milliseconds. -/
structure SessionFile where
  lines : List RawLine
  mtime : Int
deriving DecidableEq, Repr

/-- Total byte size of the file: the lines joined by `"\n"`. -/
def fileSize (ls : List RawLine) : Nat :=
  match ls with
  | [] => 0
  | _ => (ls.map (·.len)).sum + (ls.length - 1)

/-- Walk the reversed line list, keeping the lines of the trailing byte
window: a line wholly inside the remaining budget is kept as is, a line cut by
the window boundary is kept as an unparseable fragment of the remaining
length. -/
def windowRev (budget : Nat) : List RawLine → List RawLine
  | [] => []
  | l :: rest =>
    if l.len + 1 ≤ budget then l :: windowRev (budget - (l.len + 1)) rest
    else if l.len ≤ budget then [l]
    else [⟨budget, none⟩]

/-- The lines of the last `min(size, 16384)` bytes of the file
(`readSize = Math.min(stat.size, 16384)` and the backward-positioned read). -/
def windowLines (f : SessionFile) : List RawLine :=
  (windowRev (min (fileSize f.lines) 16384) f.lines.reverse).reverse

/-- The backward scan of the windowed lines: the timestamp of the last line
that parses and carries a truthy timestamp. -/
def scanTs (f : SessionFile) : Option Int :=
  (windowLines f).reverse.findSome? rawLineTs

/-- `getLastEntryTimestamp`: the trailing-window scan, falling back to the
filesystem modification time when no windowed line yields a timestamp. -/
def getLastEntryTimestamp (f : SessionFile) : Int :=
  match scanTs f with
  | some t => t
  | none => f.mtime

/-- Stable insertion into a list sorted descending by `key` (the element is
placed before the first entry whose key is not larger). -/
def insertByDesc (key : α → Int) (x : α) : List α → List α
  | [] => [x]
  | y :: ys => if key y ≤ key x then x :: y :: ys else y :: insertByDesc key x ys

/-- Stable descending sort by `key`, modelling
`files.sort((a, b) => b.lastEntry - a.lastEntry)`. -/
def sortByDesc (key : α → Int) : List α → List α
  | [] => []
  | x :: xs => insertByDesc key x (sortByDesc key xs)

/-- The active-session pick of `main` when no session id is given: compute
every candidate's last-entry timestamp, sort descending, take the first file's
name. -/
def pickActiveSession (files : List (Str × SessionFile)) : Option Str :=
  ((sortByDesc (fun p => getLastEntryTimestamp p.2) files).head?).map (·.1)

/-! ## Configuration and collaborator outputs

`PROJECT_ROOT`, `PROJECT_NAME` (ambient process configuration) and the result
of `getGitContext()` (a subprocess boundary) are passed to the embedded
functions as explicit arguments. -/

/-- Ambient configuration of one run. -/
structure Config where
  projectRoot : Str
  projectName : Str
deriving DecidableEq, Repr

/-- The value `getGitContext()` returns in scripts/export-continue.js. -/
structure GitCtx where
  branch : Str
  recent_commits : List Str
  uncommitted_files : List Str
deriving DecidableEq, Repr

/-- Frequently compared literal: `"user"`. -/
def sUser : Str := ("user").toList

/-- Frequently compared literal: `"assistant"`. -/
def sAssistant : Str := ("assistant").toList

/-- `shortPath` from scripts/export-continue.js: normalise separators, strip
the project-root prefix, else strip everything up to and including the last
occurrence of the project name. -/
def shortPath (cfg : Config) (fp : Option Str) : Str :=
  let normalized := (fp.getD []).map (fun c => if c = '\\' then '/' else c)
  let rootNormalized := cfg.projectRoot.map (fun c => if c = '\\' then '/' else c)
  if rootNormalized.isPrefixOf normalized then
    normalized.drop (rootNormalized.length + 1)
  else
    match lastOccur cfg.projectName normalized with
    | some i => normalized.drop (i + cfg.projectName.length + 1)
    | none => normalized

/-! ## The compact projection's intermediate and output shapes -/

/-- An entry of the `errors` list. -/
structure ErrorEntry where
  tool : Str
  error : Str
  input_summary : Str
deriving DecidableEq, Repr

/-- One localized edit fragment recorded for an `Edit` invocation. -/
structure EditFrag where
  removed : Str
  added : Str
  replace_all : Bool
deriving DecidableEq, Repr

/-- The per-file accumulator value of `fileChanges`. -/
structure FileChange where
  action : Str
  summary : Option Str
  edits : Option (List EditFrag)
deriving DecidableEq, Repr

/-- An entry of the `actions` list (either a notable `Bash` command or a
`Task` delegation; absent JS keys are `none`). -/
structure ActionEntry where
  command : Str
  description : Option Str
  failed : Option Bool
  output : Option Str
  agent : Option Str
  result : Option Str
deriving DecidableEq, Repr

/-- An entry of the `searches` list (`type` is `"grep"` or `"glob"`;
`matchCount` is the JSON key `matches`, renamed because `matches` is reserved
in Lean). -/
structure SearchEntry where
  stype : Str
  pattern : Option Str
  path : Option Str
  glob : Option Str
  matchCount : Option Nat
deriving DecidableEq, Repr

/-- An entry of the `conversation_digest` list. -/
structure DigestEntry where
  turn : Nat
  role : Str
  content : Str
deriving DecidableEq, Repr

/-- The three-bucket `progress` object. -/
structure Progress where
  completed : List Str
  in_progress : List Str
  pending : List Str
deriving DecidableEq, Repr

/-- The `searches` summary object of the handoff. -/
structure SearchSummary where
  count : Nat
  unique_patterns : List SearchEntry
deriving DecidableEq, Repr

/-- The `session` object of the handoff. -/
structure Session where
  id : Str
  project : Str
  branch : Str
  started : Option Int
  ended : Option Int
  duration_minutes : Int
  tool_calls : Nat
  error_count : Nat
deriving DecidableEq, Repr

/-- An entry of the `changes` list. -/
structure ChangeEntry where
  file : Str
  action : Str
  summary : Option Str
  edits : Option (List EditFrag)
deriving DecidableEq, Repr

/-- The `git_context` object of the handoff. -/
structure GitOut where
  branch : Str
  recent_commits : List Str
  uncommitted_changes : Option (List Str)
deriving DecidableEq, Repr

/-- The compact structured projection (the handoff object after the
`JSON.parse(JSON.stringify(...))` round trip, which drops `undefined`
fields — modelled by the `Option` fields). -/
structure Handoff where
  formatTag : Str
  versionTag : Str
  session : Session
  task : Str
  progress : Progress
  changes : List ChangeEntry
  files_read : List Str
  errors : Option (List ErrorEntry)
  actions : Option (List ActionEntry)
  searches : Option SearchSummary
  conversation_digest : List DigestEntry
  git_context : GitOut
deriving DecidableEq, Repr

/-- `undefined` for an empty collection, the collection otherwise (the
`xs.length > 0 ? xs : undefined` pattern). -/
def optList (l : List α) : Option (List α) :=
  if l.isEmpty then none else some l

/-- The mutable accumulator of `extractHandoff`'s main scan. -/
structure ExtractState where
  userMessages : List Str
  fileChanges : List (Str × FileChange)
  filesRead : List Str
  errors : List ErrorEntry
  actions : List ActionEntry
  searches : List SearchEntry
  latestTodos : Option (List Todo)
  toolCallCount : Nat
deriving DecidableEq, Repr

/-- The empty initial accumulator. -/
def initState : ExtractState :=
  ⟨[], [], [], [], [], [], none, 0⟩

/-- Stand-in for `JSON.stringify(input)` on a tool input (only ever truncated
into an opaque `input_summary`; the exact key order of the original JSON
object is not recoverable from the typed model, so the string fields present
are rendered in declaration order). -/
def serializeInput (input : ToolInput) : Str :=
  let fld : Str → Option Str → List Str := fun name v =>
    match v with
    | some s => [('"' :: name ++ ('"' :: ':' :: '"' :: s)) ++ ['"']]
    | none => []
  let fields :=
    fld (("command").toList) input.command ++
    fld (("description").toList) input.description ++
    fld (("file_path").toList) input.file_path ++
    fld (("content").toList) input.content ++
    fld (("old_string").toList) input.old_string ++
    fld (("new_string").toList) input.new_string ++
    fld (("pattern").toList) input.pattern ++
    fld (("path").toList) input.path ++
    fld (("glob").toList) input.glob ++
    fld (("prompt").toList) input.prompt ++
    fld (("subagent_type").toList) input.subagent_type ++
    fld (("url").toList) input.url ++
    fld (("query").toList) input.query
  '\x7b' :: (fields.intersperse ([','])).flatten ++ ['\x7d']

/-- `input.command || input.prompt` coerced to a string. -/
def jsOrStr (a b : Option Str) : Str :=
  if truthyStr a then a.getD [] else b.getD []

/-- `Math.round(d / m)` on an integer numerator `d` and positive integer
denominator `m` (`Math.round(x) = ⌊x + 1/2⌋`). -/
def jsRoundDiv (d : Int) (m : Int) : Int :=
  Int.fdiv (2 * d + m) (2 * m)

/-! ## The main scan of extractHandoff

The body of the `tool_use` loop is a sequence of independent statements; each
is embedded as one step on the accumulator, and a `tool_use` block applies
their composition.  `result` and `isError` are the values computed at the top
of the loop body. -/

/-- `toolResultMap[block.id]`. -/
def resultFor (trmap : List (Str × TRVal)) (id : Option Str) : Option TRVal :=
  match id with
  | some i => objLookup i trmap
  | none => none

/-- `result?.is_error || false`. -/
def isErrorOf (result : Option TRVal) : Bool :=
  (result.map (·.is_error)).getD false

/-- `toolCallCount++`. -/
def stepCount (st : ExtractState) : ExtractState :=
  { st with toolCallCount := st.toolCallCount + 1 }

/-- The `if (isError) errors.push({...})` statement. -/
def stepErrors (cfg : Config) (name : Str) (input : ToolInput) (result : Option TRVal)
    (st : ExtractState) : ExtractState :=
  if isErrorOf result then
    match result with
    | some r =>
      { st with errors := st.errors ++
          [{ tool := name
             error := truncate r.content 300
             input_summary :=
               if name = ("Bash").toList then truncateOpt input.command 200
               else if name = ("Read").toList ∨ name = ("Write").toList ∨
                   name = ("Edit").toList then
                 shortPath cfg input.file_path
               else truncate (serializeInput input) 200 }] }
    | none => st
  else st

/-- The summary string stored by a `Write` invocation. -/
def writeSummary (input : ToolInput) : Str :=
  if truthyStr input.content then
    natStr ((jsSplit '\n' (input.content.getD [])).length) ++ (" lines written").toList
  else ("file created").toList

/-- The edit fragment pushed by an `Edit` invocation when both `old_string`
and `new_string` are present (`!== undefined`). -/
def editFragOf (input : ToolInput) : Option EditFrag :=
  if input.old_string.isSome ∧ input.new_string.isSome then
    some { removed := truncateOpt input.old_string 200
           added := truncateOpt input.new_string 200
           replace_all := input.replace_all.getD false }
  else none

/-- A `Write` or `Edit` mutation of the `fileChanges` map. -/
inductive WEOp where
  | write (fc : FileChange)
  | edit (frag : Option EditFrag)
deriving DecidableEq, Repr

/-- The `fileChanges` mutation a `tool_use` block performs, if any, keyed by
the shortened path. -/
def weOpOf (cfg : Config) (name : Str) (input : ToolInput) : Option (Str × WEOp) :=
  if name = ("Write").toList ∧ truthyStr input.file_path then
    some (shortPath cfg input.file_path,
      .write { action := ("created").toList, summary := some (writeSummary input),
               edits := none })
  else if name = ("Edit").toList ∧ truthyStr input.file_path then
    some (shortPath cfg input.file_path, .edit (editFragOf input))
  else none

/-- The `Edit` branch's effect on the (possibly absent) prior value: ensure
the entry exists with action `"modified"`, then append the edit fragment. -/
def editApply (prior : Option FileChange) (frag : Option EditFrag) : FileChange :=
  let base : FileChange :=
    match prior with
    | none => { action := ("modified").toList, summary := none, edits := some [] }
    | some fc => { fc with action := ("modified").toList }
  match frag with
  | none => base
  | some fr => { base with edits := some (base.edits.getD [] ++ [fr]) }

/-- Apply one `Write`/`Edit` mutation to the `fileChanges` map. -/
def applyWE (m : List (Str × FileChange)) (op : Str × WEOp) : List (Str × FileChange) :=
  match op.2 with
  | .write fc => objInsert op.1 fc m
  | .edit fr => objInsert op.1 (editApply (objLookup op.1 m) fr) m

/-- The `Write` / `Edit` / `Read` else-chain. -/
def stepFiles (cfg : Config) (name : Str) (input : ToolInput)
    (st : ExtractState) : ExtractState :=
  match weOpOf cfg name input with
  | some op => { st with fileChanges := applyWE st.fileChanges op }
  | none =>
    if name = ("Read").toList ∧ truthyStr input.file_path then
      { st with filesRead := addUnique st.filesRead (shortPath cfg input.file_path) }
    else st

/-- The action entry a notable `Bash` invocation contributes, if any: a truthy
command whose trimmed text is longer than 5 characters and does not start with
`"echo "`. -/
def bashActionOf (name : Str) (input : ToolInput) (result : Option TRVal) :
    Option ActionEntry :=
  if name = ("Bash").toList ∧ truthyStr input.command then
    let cmd := jsTrim (input.command.getD [])
    if cmd.length > 5 ∧ ¬(("echo ").toList.isPrefixOf cmd) then
      some { command := truncate cmd 300
             description := if truthyStr input.description then input.description else none
             failed := if isErrorOf result then some true else none
             output :=
               if isErrorOf result then none
               else match result with
                 | some r =>
                   if r.content.isEmpty then none
                   else if (jsSplit '\n' r.content).length ≤ 5 then some (jsTrim r.content)
                   else some (truncate r.content 200)
                 | none => none
             agent := none
             result := none }
    else none
  else none

/-- The `Bash` statement of the loop. -/
def stepBash (name : Str) (input : ToolInput) (result : Option TRVal)
    (st : ExtractState) : ExtractState :=
  match bashActionOf name input result with
  | some a => { st with actions := st.actions ++ [a] }
  | none => st

/-- The search entry a `Grep` or `Glob` invocation contributes, if any. -/
def searchOf (cfg : Config) (name : Str) (input : ToolInput) (result : Option TRVal) :
    Option SearchEntry :=
  if name = ("Grep").toList then
    some { stype := ("grep").toList
           pattern := input.pattern
           path := if truthyStr input.path then some (shortPath cfg input.path) else none
           glob := if truthyStr input.glob then input.glob else none
           matchCount :=
             match result with
             | some r =>
               if r.content.isEmpty then none
               else some (((jsSplit '\n' r.content).filter (fun l => !l.isEmpty)).length)
             | none => none }
  else if name = ("Glob").toList then
    some { stype := ("glob").toList
           pattern := input.pattern
           path := if truthyStr input.path then some (shortPath cfg input.path) else none
           glob := none
           matchCount :=
             match result with
             | some r =>
               if r.content.isEmpty then none
               else some (((jsSplit '\n' r.content).filter (fun l => !l.isEmpty)).length)
             | none => none }
  else none

/-- The `Grep`/`Glob` statement of the loop. -/
def stepSearch (cfg : Config) (name : Str) (input : ToolInput) (result : Option TRVal)
    (st : ExtractState) : ExtractState :=
  match searchOf cfg name input result with
  | some s => { st with searches := st.searches ++ [s] }
  | none => st

/-- The `TodoWrite` statement: a present `todos` array (truthy even when
empty) supersedes the previous snapshot. -/
def stepTodo (name : Str) (input : ToolInput) (st : ExtractState) : ExtractState :=
  if name = ("TodoWrite").toList ∧ input.todos.isSome then
    { st with latestTodos := input.todos }
  else st

/-- The action entry a `Task` invocation contributes. -/
def taskActionOf (name : Str) (input : ToolInput) (result : Option TRVal) :
    Option ActionEntry :=
  if name = ("Task").toList then
    some { command := truncate (jsOrStr input.command input.prompt) 300
           agent :=
             some (if truthyStr input.subagent_type then input.subagent_type.getD []
               else ("unknown").toList)
           description := if truthyStr input.description then input.description else none
           result :=
             match result with
             | some r => if r.content.isEmpty then none else some (truncate r.content 300)
             | none => none
           failed := if isErrorOf result then some true else none
           output := none }
  else none

/-- The `Task` statement of the loop. -/
def stepTask (name : Str) (input : ToolInput) (result : Option TRVal)
    (st : ExtractState) : ExtractState :=
  match taskActionOf name input result with
  | some a => { st with actions := st.actions ++ [a] }
  | none => st

/-- One iteration of the `tool_use` loop: the statements of the body in
source order.  Non-`tool_use` blocks are skipped. -/
def processBlock (cfg : Config) (trmap : List (Str × TRVal))
    (st : ExtractState) (b : Block) : ExtractState :=
  match b with
  | .toolUse name id input =>
    let result := resultFor trmap id
    stepTask name input result
      (stepTodo name input
        (stepSearch cfg name input result
          (stepBash name input result
            (stepFiles cfg name input
              (stepErrors cfg name input result
                (stepCount st))))))
  | _ => st

/-- A record of type `"user"` whose message role is `"user"` and whose content
is an array: the guard of the user branch. -/
def isUserConv (e : Entry) : Bool :=
  e.type = sUser && roleOf e = some sUser

/-- A record of type `"assistant"` whose message role is `"assistant"`. -/
def isAssistantConv (e : Entry) : Bool :=
  e.type = sAssistant && roleOf e = some sAssistant

/-- The `userMessages` fragment one block contributes: a text block's
tag-stripped text, when non-empty, truncated to 500. -/
def userTextF : Block → Option Str
  | .text t =>
    let cleaned := stripSystemTags t
    if cleaned.isEmpty then none else some (truncate cleaned 500)
  | _ => none

/-- The user text fragments a genuine user record pushes onto `userMessages`. -/
def userTextsOf (content : List Block) : List Str :=
  content.filterMap userTextF

/-- One iteration of `extractHandoff`'s main loop over records. -/
def processEntry (cfg : Config) (trmap : List (Str × TRVal))
    (st : ExtractState) (e : Entry) : ExtractState :=
  match blocksOf e with
  | none => st
  | some content =>
    if isUserConv e then
      if content.any isToolResultBlock then st
      else { st with userMessages := st.userMessages ++ userTextsOf content }
    else if isAssistantConv e then
      content.foldl (processBlock cfg trmap) st
    else st

/-- The fully accumulated scan state of a log. -/
def scanState (cfg : Config) (entries : List Entry) : ExtractState :=
  entries.foldl (processEntry cfg (buildToolResultMap entries)) initState

/-! ## Turn segmentation: the conversation digest -/

/-- Whether a record opens a new turn: a genuine user record — type `"user"`,
role `"user"`, array content with no `tool_result` block. -/
def turnOpening (e : Entry) : Bool :=
  match blocksOf e with
  | some content => isUserConv e && !content.any isToolResultBlock
  | none => false

/-- The concatenated user text of a record's blocks: each text block's
tag-stripped text, joined by single spaces (`text += (text ? " " : "") +
cleaned`). -/
def userDigestText (content : List Block) : Str :=
  content.foldl
    (fun acc b =>
      match b with
      | .text t =>
        let cleaned := stripSystemTags t
        if cleaned.isEmpty then acc
        else if acc.isEmpty then cleaned else acc ++ ' ' :: cleaned
      | _ => acc)
    []

/-- The concatenated assistant text of a record's blocks: each text block's
trimmed text when non-blank, joined by single spaces. -/
def assistantDigestText (content : List Block) : Str :=
  content.foldl
    (fun acc b =>
      match b with
      | .text t =>
        if (jsTrim t).isEmpty then acc
        else if acc.isEmpty then jsTrim t else acc ++ ' ' :: jsTrim t
      | _ => acc)
    []

/-- One iteration of the digest loop: the pair is `(turnNum, digest)`. -/
def digestStep (st : Nat × List DigestEntry) (e : Entry) : Nat × List DigestEntry :=
  match blocksOf e with
  | none => st
  | some content =>
    if isUserConv e then
      if content.any isToolResultBlock then st
      else
        let n := st.1 + 1
        let text := userDigestText content
        (n, st.2 ++ (if text.isEmpty then []
          else [{ turn := n, role := sUser, content := truncate text 300 }]))
    else if isAssistantConv e then
      let text := assistantDigestText content
      (st.1, st.2 ++ (if text.isEmpty then []
        else [{ turn := st.1, role := sAssistant, content := truncate text 300 }]))
    else st

/-- The digest loop's final state on a log. -/
def digestScan (entries : List Entry) : Nat × List DigestEntry :=
  entries.foldl digestStep (0, [])

/-- The `conversation_digest` list of a log. -/
def digestOf (entries : List Entry) : List DigestEntry :=
  (digestScan entries).2

/-! ## Progress, search deduplication, session boundaries, assembly -/

/-- Bucket the most recent todos snapshot into the three progress lists. -/
def progressOf (latestTodos : Option (List Todo)) : Progress :=
  match latestTodos with
  | none => ⟨[], [], []⟩
  | some todos =>
    todos.foldl
      (fun p t =>
        if t.status = ("completed").toList then
          { p with completed := p.completed ++ [t.content] }
        else if t.status = ("in_progress").toList then
          { p with in_progress := p.in_progress ++ [t.content] }
        else { p with pending := p.pending ++ [t.content] })
      ⟨[], [], []⟩

/-- The deduplication key of a search entry: `s.type + ":" + s.pattern`
(an absent pattern concatenates as the text `"undefined"`). -/
def searchKey (s : SearchEntry) : Str :=
  s.stype ++ ':' :: s.pattern.getD (("undefined").toList)

/-- Keep only the first search entry for every `(type, pattern)` key. -/
def dedupSearchesAux (seen : List Str) : List SearchEntry → List SearchEntry
  | [] => []
  | s :: rest =>
    if searchKey s ∈ seen then dedupSearchesAux seen rest
    else s :: dedupSearchesAux (searchKey s :: seen) rest

/-- `uniqueSearches`. -/
def dedupSearches (searches : List SearchEntry) : List SearchEntry :=
  dedupSearchesAux [] searches

/-- The `(startTs, endTs)` pass: first and last truthy record timestamps. -/
def sessionBounds (entries : List Entry) : Option Int × Option Int :=
  entries.foldl
    (fun (b : Option Int × Option Int) e =>
      match e.timestamp with
      | some ts => (if b.1.isNone then some ts else b.1, some ts)
      | none => b)
    (none, none)

/-- Assemble one `changes` entry from a `fileChanges` pair: the `summary` key
is kept when present, the `edits` key when present and non-empty. -/
def assembleChange (p : Str × FileChange) : ChangeEntry :=
  { file := p.1
    action := p.2.action
    summary := p.2.summary
    edits :=
      match p.2.edits with
      | some es => if es.isEmpty then none else some es
      | none => none }

/-- `extractHandoff` from scripts/export-continue.js: the compact structured
projection of a parsed log.  The ambient configuration and the
`getGitContext()` collaborator output are explicit arguments. -/
def extractHandoff (cfg : Config) (entries : List Entry) (sessionId : Str)
    (git : GitCtx) : Handoff :=
  let st := scanState cfg entries
  let bounds := sessionBounds entries
  let durationMin :=
    match bounds with
    | (some s, some e) => jsRoundDiv (e - s) 60000
    | _ => 0
  let uniqueSearches := dedupSearches st.searches
  { formatTag := ("claude-code-handoff").toList
    versionTag := ("1.0").toList
    session :=
      { id := sessionId
        project := cfg.projectName
        branch := git.branch
        started := bounds.1
        ended := bounds.2
        duration_minutes := durationMin
        tool_calls := st.toolCallCount
        error_count := st.errors.length }
    task := (st.userMessages.head?).getD (("(no task detected)").toList)
    progress := progressOf st.latestTodos
    changes := st.fileChanges.map assembleChange
    files_read := st.filesRead
    errors := optList st.errors
    actions := optList st.actions
    searches :=
      if uniqueSearches.isEmpty then none
      else some { count := st.searches.length, unique_patterns := uniqueSearches }
    conversation_digest := digestOf entries
    git_context :=
      { branch := git.branch
        recent_commits := git.recent_commits
        uncommitted_changes :=
          if git.uncommitted_files.isEmpty then none
          else some (git.uncommitted_files.take 20) } }

/-! ## The narrative projection (scripts/export-chat.js) -/

/-- The CLI options consumed by `convertToMarkdown`. -/
structure Opts where
  includeThinking : Bool
  includeResults : Bool
  maxResultLines : Nat
deriving DecidableEq, Repr

/-- The value `getGitContext()` returns in scripts/export-chat.js. -/
structure MdGit where
  branch : Str
  recentCommits : Str
deriving DecidableEq, Repr

/-- Zero-padded decimal rendering, width 2. -/
def pad2 (n : Nat) : Str :=
  if n < 10 then '0' :: natStr n else natStr n

/-- Zero-padded decimal rendering, width 3. -/
def pad3 (n : Nat) : Str :=
  if n < 10 then '0' :: '0' :: natStr n
  else if n < 100 then '0' :: natStr n
  else natStr n

/-- Zero-padded decimal rendering, width 4. -/
def pad4 (n : Nat) : Str :=
  if n < 10 then '0' :: '0' :: '0' :: natStr n
  else if n < 100 then '0' :: '0' :: natStr n
  else if n < 1000 then '0' :: natStr n
  else natStr n

/-- Proleptic-Gregorian date of a day count since 1970-01-01 (the civil
calendar algorithm used by `Date`). -/
def civilFromDays (z0 : Int) : Int × Nat × Nat :=
  let z := z0 + 719468
  let era := Int.fdiv z 146097
  let doe := (Int.emod z 146097).toNat
  let yoe := (doe - doe / 1460 + doe / 36524 - doe / 146096) / 365
  let y := (yoe : Int) + era * 400
  let doy := doe - (365 * yoe + yoe / 4 - yoe / 100)
  let mp := (5 * doy + 2) / 153
  let d := doy - (153 * mp + 2) / 5 + 1
  let m := if mp < 10 then mp + 3 else mp - 9
  (if m ≤ 2 then y + 1 else y, m, d)

/-- `new Date(ms).toISOString()` for dates in the four-digit-year range. -/
def isoString (ms : Int) : Str :=
  let q := Int.fdiv ms 1000
  let msec := (Int.emod ms 1000).toNat
  let days := Int.fdiv q 86400
  let secs := (Int.emod q 86400).toNat
  let ymd := civilFromDays days
  let hh := secs / 3600
  let mm := (secs % 3600) / 60
  let ss := secs % 60
  pad4 ymd.1.toNat ++ '-' :: pad2 ymd.2.1 ++ '-' :: pad2 ymd.2.2 ++
    'T' :: pad2 hh ++ ':' :: pad2 mm ++ ':' :: pad2 ss ++ '.' :: pad3 msec ++ ['Z']

/-- Replace the first occurrence of a character (`s.replace("T", " ")` with a
plain-string pattern replaces only the first match). -/
def replaceFirstChar (c d : Char) : Str → Str
  | [] => []
  | x :: xs => if x == c then d :: xs else x :: replaceFirstChar c d xs

/-- `formatTimestamp` from scripts/export-chat.js: empty for a falsy input,
else the ISO rendering with the `T` blanked, cut to 19 characters, plus
`" UTC"`. -/
def formatTimestamp (ts : Option Int) : Str :=
  match ts with
  | none => []
  | some t => (replaceFirstChar 'T' ' ' (isoString t)).take 19 ++ (" UTC").toList

/-- `truncateLines`: cap the number of lines, appending a marker counting the
dropped lines. -/
def truncateLines (text : Str) (maxLines : Nat) : Str :=
  let lines := jsSplit '\n' text
  if lines.length ≤ maxLines then text
  else
    joinNL (lines.take maxLines ++
      ['\n' :: ("... (").toList ++ natStr (lines.length - maxLines) ++
        (" more lines truncated, total ").toList ++ natStr lines.length ++
        (" lines)").toList])

/-- `truncateChars`: cap the character count, appending a marker that records
the budget and the original total length. -/
def truncateChars (text : Str) (maxChars : Nat) : Str :=
  if text.length ≤ maxChars then text
  else
    text.take maxChars ++ '\n' :: ("... (truncated at ").toList ++ natStr maxChars ++
      (" chars, total ").toList ++ natStr text.length ++ [')']

/-- `getFileExt`: the substring after the last dot, defaulting to `"text"`. -/
def getFileExt (filePath : Option Str) : Str :=
  let l := ((jsSplit '.' (filePath.getD [])).getLast?).getD []
  if l.isEmpty then ("text").toList else l

/-- The statistics accumulator of `collectStats` (`searchCount` is the JS
field `searches`, `durStart`/`durEnd` the JS `duration.start`/`duration.end`). -/
structure Stats where
  userTurns : Nat
  assistantMessages : Nat
  toolCalls : Nat
  toolErrors : Nat
  thinkingBlocks : Nat
  toolBreakdown : List (Str × Nat)
  filesRead : List Str
  filesWritten : List Str
  filesEdited : List Str
  bashCommands : Nat
  searchCount : Nat
  durStart : Option Int
  durEnd : Option Int
deriving DecidableEq, Repr

/-- Whether a block is a text block. -/
def isTextBlock : Block → Bool
  | .text _ => true
  | _ => false

/-- The per-block statistics update of `collectStats`. -/
def statsBlock (cfg : Config) (trmap : List (Str × TRVal)) (s : Stats) (b : Block) :
    Stats :=
  match b with
  | .thinking _ => { s with thinkingBlocks := s.thinkingBlocks + 1 }
  | .toolUse name id input =>
    let s := { s with toolCalls := s.toolCalls + 1 }
    let nm := if name.isEmpty then ("Unknown").toList else name
    let s := { s with
      toolBreakdown := objInsert nm ((objLookup nm s.toolBreakdown).getD 0 + 1)
        s.toolBreakdown }
    let s :=
      if isErrorOf (resultFor trmap id) then { s with toolErrors := s.toolErrors + 1 }
      else s
    let s :=
      if name = ("Read").toList ∧ truthyStr input.file_path then
        { s with filesRead := addUnique s.filesRead (shortPath cfg input.file_path) }
      else s
    let s :=
      if name = ("Write").toList ∧ truthyStr input.file_path then
        { s with filesWritten := addUnique s.filesWritten (shortPath cfg input.file_path) }
      else s
    let s :=
      if name = ("Edit").toList ∧ truthyStr input.file_path then
        { s with filesEdited := addUnique s.filesEdited (shortPath cfg input.file_path) }
      else s
    let s :=
      if name = ("Bash").toList then { s with bashCommands := s.bashCommands + 1 } else s
    if name = ("Grep").toList ∨ name = ("Glob").toList then
      { s with searchCount := s.searchCount + 1 }
    else s
  | _ => s

/-- The per-record statistics update of `collectStats`. -/
def statsEntry (cfg : Config) (trmap : List (Str × TRVal)) (s : Stats) (e : Entry) :
    Stats :=
  let s :=
    match e.timestamp with
    | some ts =>
      { s with durStart := if s.durStart.isNone then some ts else s.durStart,
               durEnd := some ts }
    | none => s
  if e.type = sUser then
    match blocksOf e with
    | none => s
    | some content =>
      if content.any isToolResultBlock then s
      else { s with userTurns := s.userTurns + 1 }
  else if e.type = sAssistant then
    match blocksOf e with
    | none => s
    | some content =>
      let s :=
        if content.any isTextBlock then
          { s with assistantMessages := s.assistantMessages + 1 }
        else s
      content.foldl (statsBlock cfg trmap) s
  else s

/-- `collectStats`. -/
def collectStats (cfg : Config) (entries : List Entry) (trmap : List (Str × TRVal)) :
    Stats :=
  entries.foldl (statsEntry cfg trmap)
    ⟨0, 0, 0, 0, 0, [], [], [], [], 0, 0, none, none⟩

/-- Whether a line looks like numbered file content (one line of the
`/^\s+\d+→/m` test): some leading whitespace, then digits, then `→`. -/
def fileContentLine (l : Str) : Bool :=
  let ws := l.takeWhile wsChar
  let rest := l.drop ws.length
  let digits := rest.takeWhile (fun c => c.isDigit)
  !ws.isEmpty && !digits.isEmpty && [('→')].isPrefixOf (rest.drop digits.length)

/-- The tool-specific input section of `formatToolCall`. -/
def toolInputParts (cfg : Config) (toolName : Str) (input : ToolInput) : List Str :=
  if toolName = ("Bash").toList then
    (if truthyStr input.description then [("> ").toList ++ input.description.getD []]
     else []) ++
    [("**Command:**").toList, ("```bash").toList, input.command.getD [], ("```").toList]
  else if toolName = ("Read").toList then
    [("**File:** `").toList ++ shortPath cfg input.file_path ++ [('`')]] ++
    (if truthyNum input.offset then
      [("**Offset:** line ").toList ++ intStr (input.offset.getD 0)] else []) ++
    (if truthyNum input.limit then
      [("**Limit:** ").toList ++ intStr (input.limit.getD 0) ++ (" lines").toList]
     else [])
  else if toolName = ("Write").toList then
    [("**File:** `").toList ++ shortPath cfg input.file_path ++ [('`')]] ++
    (if truthyStr input.content then
      [("**Content written:**").toList,
       ("```").toList ++ getFileExt input.file_path,
       truncateLines (input.content.getD []) 300,
       ("```").toList]
     else [])
  else if toolName = ("Edit").toList then
    [("**File:** `").toList ++ shortPath cfg input.file_path ++ [('`')]] ++
    (if input.replace_all.getD false then [("**Mode:** replace_all").toList] else []) ++
    (match input.old_string with
     | some o => [("**Old:**").toList, ("```").toList, o, ("```").toList]
     | none => []) ++
    (match input.new_string with
     | some n => [("**New:**").toList, ("```").toList, n, ("```").toList]
     | none => [])
  else if toolName = ("Grep").toList then
    [("**Pattern:** `").toList ++ input.pattern.getD [] ++ [('`')]] ++
    (if truthyStr input.path then
      [("**Path:** `").toList ++ shortPath cfg input.path ++ [('`')]] else []) ++
    (if truthyStr input.glob then
      [("**Glob:** `").toList ++ input.glob.getD [] ++ [('`')]] else []) ++
    (if truthyStr input.output_mode then
      [("**Mode:** ").toList ++ input.output_mode.getD []] else [])
  else if toolName = ("Glob").toList then
    [("**Pattern:** `").toList ++ input.pattern.getD [] ++ [('`')]] ++
    (if truthyStr input.path then
      [("**Path:** `").toList ++ shortPath cfg input.path ++ [('`')]] else [])
  else if toolName = ("Task").toList then
    [("**Agent:** ").toList ++
      (if truthyStr input.subagent_type then input.subagent_type.getD []
       else ("?").toList)] ++
    (if truthyStr input.description then
      [("**Description:** ").toList ++ input.description.getD []] else []) ++
    (if truthyStr input.model then
      [("**Model:** ").toList ++ input.model.getD []] else []) ++
    [("**Prompt:**").toList, ("```").toList,
     truncateChars (input.prompt.getD []) 3000, ("```").toList]
  else if toolName = ("WebSearch").toList then
    [("**Query:** `").toList ++ input.query.getD [] ++ [('`')]]
  else if toolName = ("WebFetch").toList then
    [("**URL:** ").toList ++ input.url.getD []] ++
    (if truthyStr input.prompt then
      [("**Prompt:** ").toList ++ input.prompt.getD []] else [])
  else if toolName = ("TodoWrite").toList then
    [("**Tasks:**").toList] ++
    (input.todos.getD []).map (fun t =>
      let icon :=
        if t.status = ("completed").toList then ("[x]").toList
        else if t.status = ("in_progress").toList then ("[~]").toList
        else ("[ ]").toList
      ("- ").toList ++ icon ++ ' ' :: t.content)
  else if toolName = ("NotebookEdit").toList then
    [("**Notebook:** `").toList ++ shortPath cfg input.notebook_path ++ [('`')]] ++
    (if truthyStr input.cell_type then
      [("**Cell type:** ").toList ++ input.cell_type.getD []] else []) ++
    (if truthyStr input.edit_mode then
      [("**Edit mode:** ").toList ++ input.edit_mode.getD []] else []) ++
    (if truthyStr input.new_source then
      [("**Source:**").toList, ("```").toList,
       truncateLines (input.new_source.getD []) 100, ("```").toList]
     else [])
  else if toolName = ("AskUserQuestion").toList then
    (input.questions.getD []).flatMap (fun q =>
      [("**Q:** ").toList ++ q.question] ++
      (match q.options with
       | some os => os.map (fun o =>
           ("  - ").toList ++ o.label ++ (": ").toList ++ (o.description.getD []))
       | none => []))
  else
    [("**Input:**").toList, ("```json").toList,
     truncateChars (serializeInput input) 2000, ("```").toList]

/-- The result section of `formatToolCall` (present when results are included
and the invocation has a resolved outcome). -/
def toolResultParts (toolName : Str) (input : ToolInput) (opts : Opts)
    (result : Option TRVal) : List Str :=
  if opts.includeResults then
    match result with
    | none => []
    | some r =>
      [[]] ++
      (if r.is_error then
        [("**Result: ERROR**").toList, ("```").toList,
         truncateLines (if r.content.isEmpty then ("(empty)").toList else r.content)
           opts.maxResultLines,
         ("```").toList]
      else if (jsTrim r.content).isEmpty then []
      else
        let isFileContent := (jsSplit '\n' r.content).any fileContentLine
        let ext :=
          if toolName = ("Read").toList ∧ truthyStr input.file_path then
            getFileExt input.file_path
          else []
        [("**Result:**").toList,
         (if isFileContent ∧ ¬ext.isEmpty then ("```").toList ++ ext
          else ("```").toList),
         truncateLines r.content opts.maxResultLines,
         ("```").toList])
  else []

/-- `formatToolCall`: header, tool-specific input rendering, optional result
section, joined by newlines. -/
def formatToolCall (cfg : Config) (opts : Opts) (trmap : List (Str × TRVal))
    (name : Str) (id : Option Str) (input : ToolInput) : Str :=
  let toolName := if name.isEmpty then ("Unknown").toList else name
  let result := resultFor trmap id
  let isError := isErrorOf result
  let header :=
    if isError then ("### [ERROR] Tool: ").toList ++ toolName
    else ("### Tool: ").toList ++ toolName
  joinNL ([header, []] ++ toolInputParts cfg toolName input ++
    toolResultParts toolName input opts result)

/-- The rendered section of one user record in the conversation replay. -/
def mdUserEntryParts (turn : Nat) (time : Str) (content : List Block) : List Str :=
  [("### User (Turn ").toList ++ natStr turn ++ [(')')]] ++
  (if time.isEmpty then [] else [('*') :: time ++ [('*')]]) ++ [[]] ++
  content.flatMap (fun b =>
    match b with
    | .text t =>
      let cleaned := stripSystemTags t
      if cleaned.isEmpty then [] else [cleaned, []]
    | .image => [("*[Image attached]*").toList, []]
    | _ => []) ++
  [("---").toList, []]

/-- The `### Assistant` header lines, emitted once before the first rendered
block of an assistant record. -/
def mdAssistantHeader (time : Str) : List Str :=
  [("### Assistant").toList] ++
  (if time.isEmpty then [] else [('*') :: time ++ [('*')]]) ++ [[]]

/-- One block of an assistant record in the conversation replay; the flag
tracks whether the header has been emitted. -/
def mdAssistantBlock (cfg : Config) (opts : Opts) (trmap : List (Str × TRVal))
    (time : Str) (st : Bool × List Str) (b : Block) : Bool × List Str :=
  match b with
  | .thinking th =>
    if opts.includeThinking then
      let ps := if st.1 then st.2 else st.2 ++ mdAssistantHeader time
      if (jsTrim th).isEmpty then (true, ps)
      else
        (true, ps ++
          [("<details>").toList,
           ("<summary>Thinking / Internal Reasoning</summary>").toList, [],
           truncateChars th 2000, [], ("</details>").toList, []])
    else st
  | .text t =>
    let ps := if st.1 then st.2 else st.2 ++ mdAssistantHeader time
    (true, ps ++ [t, []])
  | .toolUse name id input =>
    let ps := if st.1 then st.2 else st.2 ++ mdAssistantHeader time
    (true, ps ++ [formatToolCall cfg opts trmap name id input, []])
  | _ => st

/-- The rendered section of one assistant record. -/
def mdAssistantEntryParts (cfg : Config) (opts : Opts) (trmap : List (Str × TRVal))
    (time : Str) (content : List Block) : List Str :=
  let r := content.foldl (mdAssistantBlock cfg opts trmap time) (false, [])
  if r.1 then r.2 ++ [("---").toList, []] else r.2

/-- One iteration of the conversation replay loop: the pair is
`(turnCount, parts)`. -/
def mdConvStep (cfg : Config) (opts : Opts) (trmap : List (Str × TRVal))
    (st : Nat × List Str) (e : Entry) : Nat × List Str :=
  if e.type = sUser ∨ e.type = sAssistant then
    match blocksOf e with
    | none => st
    | some content =>
      let role := (roleOf e).getD []
      let time := formatTimestamp e.timestamp
      if role = sUser then
        if content.any isToolResultBlock then st
        else (st.1 + 1, st.2 ++ mdUserEntryParts (st.1 + 1) time content)
      else if role = sAssistant then
        (st.1, st.2 ++ mdAssistantEntryParts cfg opts trmap time content)
      else st
  else st

/-- The conversation replay section. -/
def mdConversationParts (cfg : Config) (opts : Opts) (trmap : List (Str × TRVal))
    (entries : List Entry) : List Str :=
  (entries.foldl (mdConvStep cfg opts trmap) (0, [])).2

/-- Everything `convertToMarkdown` pushes before the footer: header, metadata
table, session summary, tool breakdown, touched files, recent commits, and
the conversation replay. -/
def mdBodyParts (cfg : Config) (entries : List Entry) (sessionId : Str)
    (opts : Opts) (git : MdGit) : List Str :=
  let trmap := buildToolResultMap entries
  let stats := collectStats cfg entries trmap
  let allFilesWritten := stats.filesEdited.foldl addUnique stats.filesWritten
  [("# Claude Code Conversation Export").toList, [],
   ("> **Purpose:** This export is structured for AI agents to read, review progress,").toList,
   ("> identify issues, and recommend next steps. Includes full tool inputs/outputs.").toList,
   [],
   ("## Metadata").toList, [],
   ("| Field | Value |").toList,
   ("|-------|-------|").toList,
   ("| Session ID | `").toList ++ sessionId ++ ("` |").toList,
   ("| Project | ").toList ++ cfg.projectName ++ (" |").toList,
   ("| Branch | `").toList ++ git.branch ++ ("` |").toList,
   ("| Start | ").toList ++ formatTimestamp stats.durStart ++ (" |").toList,
   ("| End | ").toList ++ formatTimestamp stats.durEnd ++ (" |").toList] ++
  (match stats.durStart, stats.durEnd with
   | some s, some e =>
     [("| Duration | ~").toList ++ intStr (jsRoundDiv (e - s) 60000) ++ (" min |").toList]
   | _, _ => []) ++
  [[],
   ("## Session Summary").toList, [],
   ("- **").toList ++ natStr stats.userTurns ++ ("** user turns, **").toList ++
     natStr stats.assistantMessages ++ ("** assistant responses").toList,
   ("- **").toList ++ natStr stats.toolCalls ++ ("** tool calls (").toList ++
     natStr stats.toolErrors ++ (" errors)").toList] ++
  (if stats.thinkingBlocks > 0 then
    [("- **").toList ++ natStr stats.thinkingBlocks ++
      ("** thinking/reasoning blocks").toList]
   else []) ++
  [[]] ++
  (let sorted := sortByDesc (fun p => (p.2 : Int)) stats.toolBreakdown
   if sorted.isEmpty then []
   else
     [("**Tool usage breakdown:**").toList] ++
     sorted.map (fun p => ("- ").toList ++ p.1 ++ (": ").toList ++ natStr p.2 ++ [('x')]) ++
     [[]]) ++
  (if !stats.filesRead.isEmpty || !allFilesWritten.isEmpty then
    [("**Files touched:**").toList] ++
    (if allFilesWritten.isEmpty then []
     else
       [("- Modified/Created (").toList ++ natStr allFilesWritten.length ++ ("):").toList] ++
       allFilesWritten.map (fun f => ("  - `").toList ++ f ++ [('`')])) ++
    (if stats.filesRead.isEmpty then []
     else
       [("- Read (").toList ++ natStr stats.filesRead.length ++ ("):").toList] ++
       stats.filesRead.map (fun f => ("  - `").toList ++ f ++ [('`')])) ++
    [[]]
   else []) ++
  (if git.recentCommits.isEmpty then []
   else
     [("**Recent commits (context):**").toList, ("```").toList, git.recentCommits,
      ("```").toList, []]) ++
  [("---").toList, [],
   ("## Conversation").toList, []] ++
  mdConversationParts cfg opts trmap entries

/-- The footer `convertToMarkdown` pushes last; the exported-at line reads the
wall clock. -/
def mdFooterParts (now : Int) : List Str :=
  [[], ("---").toList,
   ("*Exported at ").toList ++ formatTimestamp (some now) ++ [('*')],
   ("*Export version: 2.0 (AI-optimized with tool results)*").toList,
   ("*Tool: claude-export (https://github.com/stephenpham68/claude-export)*").toList]

/-- `convertToMarkdown` from scripts/export-chat.js: the narrative projection.
The ambient configuration, the `getGitContext()` output and the wall-clock
reading of the footer are explicit arguments. -/
def convertToMarkdown (cfg : Config) (entries : List Entry) (sessionId : Str)
    (opts : Opts) (git : MdGit) (now : Int) : Str :=
  joinNL (mdBodyParts cfg entries sessionId opts git ++ mdFooterParts now)

/-! ## Reference functions used by the verification statements -/

/-- The `tool_use` blocks the main scan visits inside one record. -/
def entryToolUses (e : Entry) : List Block :=
  match blocksOf e with
  | none => []
  | some content =>
    if isUserConv e then []
    else if isAssistantConv e then content.filter isToolUseBlock
    else []

/-- All `tool_use` blocks the main scan visits, in file order. -/
def toolUsesOf (entries : List Entry) : List Block :=
  entries.flatMap entryToolUses

/-- The action entries one block contributes to the `actions` list: the
notable-`Bash` entry and the `Task` entry (at most one of the two, since a
block has a single tool name). -/
def actionItemsOf (trmap : List (Str × TRVal)) (b : Block) : List ActionEntry :=
  match b with
  | .toolUse name id input =>
    let result := resultFor trmap id
    (bashActionOf name input result).toList ++ (taskActionOf name input result).toList
  | _ => []

/-- The `userMessages` fragments one record contributes. -/
def entryUserMsgs (e : Entry) : List Str :=
  match blocksOf e with
  | none => []
  | some content =>
    if isUserConv e then
      if content.any isToolResultBlock then [] else userTextsOf content
    else []

/-- All `userMessages` fragments of a log, in file order. -/
def userMsgsOf (entries : List Entry) : List Str :=
  entries.flatMap entryUserMsgs

/-- The tag-stripped text of one text block, when non-empty and before
truncation. -/
def cleanedF : Block → Option Str
  | .text t =>
    let cleaned := stripSystemTags t
    if cleaned.isEmpty then none else some cleaned
  | _ => none

/-- The tag-stripped non-empty text-block texts of a record's content, before
truncation. -/
def cleanedTexts (content : List Block) : List Str :=
  content.filterMap cleanedF

/-- The first non-empty tag-stripped user text of the log's genuine user
records: the text whose truncation becomes the `task` field. -/
def firstUserCleaned (entries : List Entry) : Option Str :=
  (entries.flatMap (fun e =>
    match blocksOf e with
    | none => []
    | some content =>
      if isUserConv e then
        if content.any isToolResultBlock then [] else cleanedTexts content
      else [])).head?

/-- The `fileChanges` mutation one block performs, if any. -/
def weOpOfBlock (cfg : Config) : Block → Option (Str × WEOp)
  | .toolUse name _ input => weOpOf cfg name input
  | _ => none

/-- All `fileChanges` mutations of a log, in file order. -/
def weOps (cfg : Config) (entries : List Entry) : List (Str × WEOp) :=
  (toolUsesOf entries).filterMap (weOpOfBlock cfg)

/-- The last `Write`/`Edit` mutation recorded for a given shortened path. -/
def lastWEFor (sp : Str) (ops : List (Str × WEOp)) : Option WEOp :=
  ((ops.filter (fun p => decide (p.1 = sp))).map (·.2)).getLast?

/-- The change entry the compact projection reports for a given file key. -/
def changeFor (h : Handoff) (sp : Str) : Option ChangeEntry :=
  h.changes.find? (fun c => c.file == sp)

/-- A genuine user conversational record in the sense of the specification's
turn segmenter: it opens a turn (type `"user"`, role `"user"`, array content
without `tool_result` blocks) and has renderable text content. -/
def genuineUserText (e : Entry) : Bool :=
  turnOpening e && !(userDigestText ((blocksOf e).getD [])).isEmpty

/-- An assistant conversational record with renderable text: type and role
`"assistant"`, array content whose concatenated trimmed text is non-empty. -/
def assistantWithText (e : Entry) : Bool :=
  match blocksOf e with
  | none => false
  | some content => isAssistantConv e && !(assistantDigestText content).isEmpty

/-- The number of turn-opening user records of a log. -/
def countOpen (entries : List Entry) : Nat :=
  (entries.filter turnOpening).length

/-- The digest entries one record contributes, given the number of turns
opened so far. -/
def digestDelta (n : Nat) (e : Entry) : List DigestEntry :=
  match blocksOf e with
  | none => []
  | some content =>
    if isUserConv e then
      if content.any isToolResultBlock then []
      else if (userDigestText content).isEmpty then []
      else [{ turn := n + 1, role := sUser, content := truncate (userDigestText content) 300 }]
    else if isAssistantConv e then
      if (assistantDigestText content).isEmpty then []
      else [{ turn := n, role := sAssistant,
              content := truncate (assistantDigestText content) 300 }]
    else []

/-- The digest of a log processed from turn counter `n`. -/
def digestFrom (n : Nat) : List Entry → List DigestEntry
  | [] => []
  | e :: rest => digestDelta n e ++ digestFrom (n + (if turnOpening e then 1 else 0)) rest

/-- All outcome values recorded for one correlation id, in file order. -/
def outcomesFor (entries : List Entry) (id : Str) : List TRVal :=
  (((toolResultList entries).filter (fun p => decide (p.1 = id)))).map (·.2)

/-- The number of entries of a map carrying a given key. -/
def keyCount (k : Str) (m : List (Str × α)) : Nat :=
  (m.filter (fun p => decide (p.1 = k))).length

/-- Fold a list of `(id, outcome)` pairs into a map. -/
def insAll (m : List (Str × TRVal)) (l : List (Str × TRVal)) : List (Str × TRVal) :=
  l.foldl (fun m p => objInsert p.1 p.2 m) m

/-! ## Concrete inputs used by witnesses and counterexamples -/

/-- A candidate file whose trailing record carries timestamp 100 but whose
modification time is far in the future. -/
def fileA : SessionFile := ⟨[⟨10, some (some 100)⟩], 999999⟩

/-- A candidate file whose trailing record carries the newer timestamp 200
but whose modification time is older than `fileA`'s. -/
def fileB : SessionFile := ⟨[⟨10, some (some 200)⟩], 5⟩

/-- A candidate file with no parseable timestamped line. -/
def fileC : SessionFile := ⟨[⟨3, none⟩], 77⟩

/-- A log holding two outcomes for the same correlation id `"t1"`. -/
def c3log : List Entry :=
  [⟨("user").toList, none,
    some ⟨("user").toList,
      some [Block.toolResult (some (("t1").toList)) (.str (("first").toList)) none]⟩⟩,
   ⟨("user").toList, none,
    some ⟨("user").toList,
      some [Block.toolResult (some (("t1").toList)) (.str (("second").toList))
        (some true)]⟩⟩]

/-- A user record with one text block. -/
def mkUserEntry (s : Str) : Entry :=
  ⟨sUser, none, some ⟨sUser, some [Block.text s]⟩⟩

/-- An assistant record with one text block. -/
def mkAssistantEntry (s : Str) : Entry :=
  ⟨sAssistant, none, some ⟨sAssistant, some [Block.text s]⟩⟩

/-- A two-record conversation: one user turn, one assistant reply. -/
def c2log : List Entry :=
  [mkUserEntry (("hi").toList), mkAssistantEntry (("yo").toList)]

/-- A log whose only record is an assistant text record. -/
def c10log : List Entry := [mkAssistantEntry (("hello").toList)]

/-- A concrete run configuration. -/
def cfg0 : Config := ⟨("/root/proj").toList, ("proj").toList⟩

/-- A concrete git context with no uncommitted files. -/
def git0 : GitCtx := ⟨("main").toList, [], []⟩

/-- A concrete session id. -/
def sid0 : Str := ("sess").toList

/-- The default narrative-exporter options. -/
def opts0 : Opts := ⟨true, true, 150⟩

/-- A concrete narrative-exporter git context. -/
def mgit0 : MdGit := ⟨("main").toList, []⟩

/-- A user record whose text carries a leading space. -/
def c6log : List Entry := [mkUserEntry ((" hi").toList)]

/-- A `Bash` invocation block. -/
def mkBash (id cmd : Str) : Block :=
  Block.toolUse (("Bash").toList) (some id) { emptyInput with command := some cmd }

/-- A `Write` invocation block. -/
def mkWrite (fp content : Str) : Block :=
  Block.toolUse (("Write").toList) none
    { emptyInput with file_path := some fp, content := some content }

/-- An `Edit` invocation block. -/
def mkEdit (fp old new : Str) : Block :=
  Block.toolUse (("Edit").toList) none
    { emptyInput with
      file_path := some fp
      old_string := some old
      new_string := some new }

/-- An assistant record wrapping invocation blocks. -/
def mkAssistantTools (bs : List Block) : Entry :=
  ⟨sAssistant, none, some ⟨sAssistant, some bs⟩⟩

/-- A log with one notable and one `echo`-filtered `Bash` invocation. -/
def c8log : List Entry :=
  [mkAssistantTools
    [mkBash (("t1").toList) (("ls -la /tmp").toList),
     mkBash (("t2").toList) (("echo hi there").toList)]]

/-- A log in which a `Write` of `a.txt` is followed by an `Edit` of `a.txt`
and then by another `Write` of `a.txt`. -/
def c9log : List Entry :=
  [mkAssistantTools
    [mkWrite (("a.txt").toList) (("x").toList),
     mkEdit (("a.txt").toList) (("x").toList) (("z").toList),
     mkWrite (("a.txt").toList) (("y").toList)]]

/-- A log in which a `Write` of `b.txt` is followed by an `Edit` of `b.txt`. -/
def c9log2 : List Entry :=
  [mkAssistantTools
    [mkWrite (("b.txt").toList) (("x").toList),
     mkEdit (("b.txt").toList) (("x").toList) (("z").toList)]]

/-- The input of the filtered echo invocation. -/
def echoInput : ToolInput :=
  { emptyInput with command := some (("echo hi there").toList) }

/-! ## Theorems -/

/-- C4, counterexample: the narrative exporter's character truncation is not
idempotent — its appended marker records the original total length, so
re-truncating a truncated string changes the marker (`total 10` becomes
`total 40`). -/
theorem c4_truncateChars_not_idempotent :
    truncateChars (truncateChars (("aaaaaaaaaa").toList) 3) 3 ≠
      truncateChars (("aaaaaaaaaa").toList) 3 := by
  decide

/-- C4, amended: the compact exporter's `truncate` is idempotent — truncating
an already-truncated string at the same character budget returns it
unchanged.  (The narrative exporter's `truncateChars` is not, per the
counterexample.) -/
theorem c4_truncate_idempotent (s : Str) (m : Nat) :
    truncate (truncate s m) m = truncate s m := by
  by_cases h : s.length ≤ m
  · unfold truncate
    rw [if_pos h, if_pos h]
  · have hlen : (s.take m).length = m := by
      rw [List.length_take]
      omega
    have hdots : (("...").toList).length = 3 := rfl
    have h2 : ¬ ((s.take m ++ ("...").toList).length ≤ m) := by
      rw [List.length_append, hlen, hdots]
      omega
    unfold truncate
    rw [if_neg h, if_neg h2]
    congr 1
    exact List.take_left' hlen

/-- The trailing window never holds more line bytes than its budget. -/
theorem windowRev_sum_le (ls : List RawLine) :
    ∀ b, ((windowRev b ls).map RawLine.len).sum ≤ b := by
  induction ls with
  | nil =>
    intro b
    simp [windowRev]
  | cons l rest ih =>
    intro b
    unfold windowRev
    by_cases h1 : l.len + 1 ≤ b
    · rw [if_pos h1]
      simp only [List.map_cons, List.sum_cons]
      have := ih (b - (l.len + 1))
      omega
    · rw [if_neg h1]
      by_cases h2 : l.len ≤ b
      · rw [if_pos h2]
        simpa using h2
      · rw [if_neg h2]
        simp

/-- C1: for two candidate logs whose trailing-window scans yield timestamps
`t1 < t2`, the active-session pick (no explicit session id) chooses the
second log in either listing order, whatever the two modification times are;
moreover the per-file scan inspects at most 16384 trailing bytes of a file
and falls back to the modification time when no windowed line carries a
timestamp. -/
theorem c1_active_selection (nA nB : Str) (A B : SessionFile) (t1 t2 : Int)
    (h1 : scanTs A = some t1) (h2 : scanTs B = some t2) (ht : t1 < t2) :
    (pickActiveSession [(nA, A), (nB, B)] = some nB ∧
     pickActiveSession [(nB, B), (nA, A)] = some nB) ∧
    (∀ C : SessionFile, ((windowLines C).map RawLine.len).sum ≤ 16384) ∧
    (∀ C : SessionFile, scanTs C = none → getLastEntryTimestamp C = C.mtime) := by
  have kA : getLastEntryTimestamp A = t1 := by
    unfold getLastEntryTimestamp
    rw [h1]
  have kB : getLastEntryTimestamp B = t2 := by
    unfold getLastEntryTimestamp
    rw [h2]
  refine ⟨⟨?_, ?_⟩, ?_, ?_⟩
  · have hn : ¬ (t2 ≤ t1) := not_le.mpr ht
    simp [pickActiveSession, sortByDesc, insertByDesc, kA, kB, hn]
  · have hy : t1 ≤ t2 := le_of_lt ht
    simp [pickActiveSession, sortByDesc, insertByDesc, kA, kB, hy]
  · intro C
    unfold windowLines
    calc ((windowRev (min (fileSize C.lines) 16384) C.lines.reverse).reverse.map
            RawLine.len).sum
        = ((windowRev (min (fileSize C.lines) 16384) C.lines.reverse).map
            RawLine.len).sum := by
          rw [List.map_reverse, List.sum_reverse]
      _ ≤ min (fileSize C.lines) 16384 := windowRev_sum_le _ _
      _ ≤ 16384 := min_le_right _ _
  · intro C hC
    unfold getLastEntryTimestamp
    rw [hC]

/-- C1, witness: on the concrete pair `fileA` (older trailing timestamp,
newer mtime) and `fileB` (newer trailing timestamp, older mtime) the pick
chooses `fileB` in both orders, and the timestampless `fileC` falls back to
its mtime. -/
theorem c1_active_selection_witness :
    (pickActiveSession [(("a").toList, fileA), (("b").toList, fileB)] =
       some (("b").toList) ∧
     pickActiveSession [(("b").toList, fileB), (("a").toList, fileA)] =
       some (("b").toList)) ∧
    getLastEntryTimestamp fileC = 77 := by
  have h := c1_active_selection (("a").toList) (("b").toList) fileA fileB 100 200
    (by decide) (by decide) (by decide)
  exact ⟨h.1, h.2.2 fileC (by decide)⟩

/-- `insAll` unfolding on a cons. -/
theorem insAll_cons (m : List (Str × TRVal)) (p : Str × TRVal) (l : List (Str × TRVal)) :
    insAll m (p :: l) = insAll (objInsert p.1 p.2 m) l := rfl

/-- `insAll` over an append folds sequentially. -/
theorem insAll_append (m : List (Str × TRVal)) (l1 l2 : List (Str × TRVal)) :
    insAll m (l1 ++ l2) = insAll (insAll m l1) l2 := by
  unfold insAll
  rw [List.foldl_append]

/-- The inner block fold of `buildToolResultMap` registers exactly the
`trPairOf` pairs of the content, in order. -/
theorem blocksFold_insAll (content : List Block) :
    ∀ m : List (Str × TRVal),
      content.foldl (fun m b => match trPairOf b with
        | some (k, v) => objInsert k v m
        | none => m) m = insAll m (content.filterMap trPairOf) := by
  induction content with
  | nil =>
    intro m
    rfl
  | cons b rest ih =>
    intro m
    simp only [List.foldl_cons, List.filterMap_cons]
    cases h : trPairOf b with
    | none =>
      exact ih m
    | some p =>
      exact ih (objInsert p.1 p.2 m)

/-- `buildToolResultMap` folds the flat outcome sequence into the map. -/
theorem buildMap_insAll (entries : List Entry) :
    ∀ m : List (Str × TRVal),
      entries.foldl
        (fun map e =>
          if e.type = ("user").toList then
            match blocksOf e with
            | some content =>
              content.foldl
                (fun m b => match trPairOf b with
                  | some (k, v) => objInsert k v m
                  | none => m)
                map
            | none => map
          else map)
        m = insAll m (toolResultList entries) := by
  induction entries with
  | nil =>
    intro m
    rfl
  | cons e rest ih =>
    intro m
    simp only [List.foldl_cons, toolResultList, List.flatMap_cons]
    rw [insAll_append]
    by_cases ht : e.type = ("user").toList
    · rw [if_pos ht, if_pos ht]
      cases hb : blocksOf e with
      | none =>
        exact ih m
      | some content =>
        dsimp only
        rw [blocksFold_insAll]
        exact ih _
    · rw [if_neg ht, if_neg ht]
      exact ih m

/-- `buildToolResultMap` equals the incremental registration of all outcome
pairs starting from the empty map. -/
theorem buildMap_eq (entries : List Entry) :
    buildToolResultMap entries = insAll [] (toolResultList entries) := by
  unfold buildToolResultMap toolResultList
  exact buildMap_insAll entries []

/-- Lookup after an assignment: the assigned key reads the new value, any
other key is unaffected. -/
theorem objLookup_objInsert (k k' : Str) (v : α) (m : List (Str × α)) :
    objLookup k (objInsert k' v m) = if k = k' then some v else objLookup k m := by
  induction m with
  | nil =>
    rfl
  | cons p rest ih =>
    obtain ⟨a, b⟩ := p
    by_cases h1 : k' = a
    · have hins : objInsert k' v ((a, b) :: rest) = (k', v) :: rest := by
        simp [objInsert, h1]
      rw [hins]
      by_cases h2 : k = k'
      · simp [objLookup, h2, h1]
      · simp [objLookup, h2, h1.symm ▸ h2]
    · have hins : objInsert k' v ((a, b) :: rest) = (a, b) :: objInsert k' v rest := by
        simp [objInsert, h1]
      rw [hins]
      by_cases h2 : k = a
      · have hkk : ¬ (k = k') := fun hh => h1 (hh ▸ h2)
        have hak : ¬ (a = k') := fun hh => h1 hh.symm
        simp [objLookup, h2, hkk, hak]
      · simp [objLookup, h2, ih]

/-- Every key of `objInsert k v m` is `k` or a key of `m`. -/
theorem keys_objInsert_sub (k x : Str) (v : α) (m : List (Str × α))
    (hx : x ∈ (objInsert k v m).map Prod.fst) :
    x = k ∨ x ∈ m.map Prod.fst := by
  induction m with
  | nil =>
    rw [show objInsert k v ([] : List (Str × α)) = [(k, v)] from rfl] at hx
    simp only [List.map_cons, List.map_nil, List.mem_singleton] at hx
    exact Or.inl hx
  | cons p rest ih =>
    obtain ⟨a, b⟩ := p
    by_cases h : k = a
    · rw [show objInsert k v ((a, b) :: rest) = (k, v) :: rest by simp [objInsert, h]] at hx
      simp only [List.map_cons, List.mem_cons] at hx
      rcases hx with hx | hx
      · exact Or.inl hx
      · exact Or.inr (List.mem_cons_of_mem _ hx)
    · rw [show objInsert k v ((a, b) :: rest) = (a, b) :: objInsert k v rest by
        simp [objInsert, h]] at hx
      simp only [List.map_cons, List.mem_cons] at hx
      rcases hx with hx | hx
      · exact Or.inr (by rw [hx]; exact List.mem_cons_self _ _)
      · rcases ih hx with hh | hh
        · exact Or.inl hh
        · exact Or.inr (List.mem_cons_of_mem _ hh)

/-- Assignment preserves key uniqueness. -/
theorem nodupKeys_objInsert (k : Str) (v : α) (m : List (Str × α))
    (h : (m.map Prod.fst).Nodup) : ((objInsert k v m).map Prod.fst).Nodup := by
  induction m with
  | nil =>
    simp [objInsert]
  | cons p rest ih =>
    obtain ⟨a, b⟩ := p
    simp only [List.map_cons, List.nodup_cons] at h
    by_cases hk : k = a
    · rw [show objInsert k v ((a, b) :: rest) = (k, v) :: rest by simp [objInsert, hk]]
      simp only [List.map_cons, List.nodup_cons]
      exact ⟨hk ▸ h.1, h.2⟩
    · rw [show objInsert k v ((a, b) :: rest) = (a, b) :: objInsert k v rest by
        simp [objInsert, hk]]
      simp only [List.map_cons, List.nodup_cons]
      refine ⟨?_, ih h.2⟩
      intro hmem
      rcases keys_objInsert_sub k a v rest hmem with hh | hh
      · exact hk hh.symm
      · exact h.1 hh

/-- Registering any pair sequence into a key-unique map keeps keys unique. -/
theorem nodupKeys_insAll (l : List (Str × TRVal)) :
    ∀ m : List (Str × TRVal), ((m.map Prod.fst).Nodup) →
      ((insAll m l).map Prod.fst).Nodup := by
  induction l with
  | nil =>
    intro m h
    exact h
  | cons p rest ih =>
    intro m h
    rw [insAll_cons]
    exact ih _ (nodupKeys_objInsert p.1 p.2 m h)

/-- A key absent from the map has `keyCount` zero. -/
theorem keyCount_eq_zero (k : Str) (m : List (Str × α))
    (h : k ∉ m.map Prod.fst) : keyCount k m = 0 := by
  induction m with
  | nil =>
    rfl
  | cons p rest ih =>
    simp only [List.map_cons, List.mem_cons] at h
    push_neg at h
    unfold keyCount
    rw [List.filter_cons]
    have hd : (decide (p.1 = k)) = false := by
      simp only [decide_eq_false_iff_not]
      exact fun hh => h.1 hh.symm
    rw [hd]
    simp only [Bool.false_eq_true, if_false]
    exact ih h.2

/-- A key-unique map holds at most one entry per key. -/
theorem keyCount_le_one (k : Str) (m : List (Str × α))
    (h : (m.map Prod.fst).Nodup) : keyCount k m ≤ 1 := by
  induction m with
  | nil =>
    simp [keyCount]
  | cons p rest ih =>
    simp only [List.map_cons, List.nodup_cons] at h
    unfold keyCount
    rw [List.filter_cons]
    by_cases hk : p.1 = k
    · have h0 : keyCount k rest = 0 := keyCount_eq_zero k rest (hk ▸ h.1)
      unfold keyCount at h0
      have hfil : (rest.filter (fun q => decide (q.1 = k))) = [] :=
        List.length_eq_zero.mp h0
      simp [hk, hfil]
    · have hd : (decide (p.1 = k)) = false := by
        simp only [decide_eq_false_iff_not]
        exact hk
      rw [hd]
      simp only [Bool.false_eq_true, if_false]
      exact ih h.2

/-- A successful lookup guarantees at least one entry with that key. -/
theorem keyCount_pos_of_lookup (k : Str) (m : List (Str × α)) (v : α)
    (h : objLookup k m = some v) : 1 ≤ keyCount k m := by
  induction m with
  | nil =>
    simp [objLookup] at h
  | cons p rest ih =>
    unfold keyCount
    rw [List.filter_cons]
    have hh : objLookup k (p :: rest) = if k = p.1 then some p.2 else objLookup k rest := by
      obtain ⟨a, b⟩ := p
      rfl
    by_cases hk : k = p.1
    · simp [hk.symm]
    · rw [hh, if_neg hk] at h
      have := ih h
      have hd : (decide (p.1 = k)) = false := by
        simp only [decide_eq_false_iff_not]
        exact fun hx => hk hx.symm
      rw [hd]
      simp only [Bool.false_eq_true, if_false]
      exact this

/-- Lookup in an incrementally registered map reads the last pair with the
key, else falls through to the base map. -/
theorem objLookup_insAll (l : List (Str × TRVal)) (m : List (Str × TRVal)) (k : Str) :
    objLookup k (insAll m l) =
      match ((l.filter (fun p => decide (p.1 = k))).map (·.2)).getLast? with
      | some v => some v
      | none => objLookup k m := by
  induction l using List.reverseRecOn with
  | nil =>
    rfl
  | append_singleton rest p ih =>
    rw [show insAll m (rest ++ [p]) = objInsert p.1 p.2 (insAll m rest) by
      rw [insAll_append]; rfl]
    rw [objLookup_objInsert, List.filter_append, List.map_append]
    by_cases hk : p.1 = k
    · have hfil : List.filter (fun q => decide (q.1 = k)) [p] = [p] := by
        simp [hk]
      rw [hfil, show (List.map (fun x => x.2) [p]) = [p.2] from rfl,
        List.getLast?_concat, if_pos hk.symm]
    · have hfil : List.filter (fun q => decide (q.1 = k)) [p] = [] := by
        simp [hk]
      rw [hfil, if_neg (fun hh => hk hh.symm)]
      simpa using ih

/-- C3: when a log carries two or more outcomes for the same correlation id,
the built map holds exactly one entry for that id, whose value is the outcome
appearing last in file order.  (The map is a total function of the log, so no
error condition exists.) -/
theorem c3_duplicate_outcomes_last_wins (entries : List Entry) (id : Str)
    (h : 2 ≤ (outcomesFor entries id).length) :
    keyCount id (buildToolResultMap entries) = 1 ∧
    objLookup id (buildToolResultMap entries) = (outcomesFor entries id).getLast? := by
  have hlook : objLookup id (buildToolResultMap entries) =
      (outcomesFor entries id).getLast? := by
    rw [buildMap_eq, objLookup_insAll]
    unfold outcomesFor
    cases hx : (((toolResultList entries).filter
        (fun p => decide (p.1 = id))).map (·.2)).getLast? with
    | none => rfl
    | some v => rfl
  constructor
  · have hnd : ((buildToolResultMap entries).map Prod.fst).Nodup := by
      rw [buildMap_eq]
      exact nodupKeys_insAll (toolResultList entries) [] (by simp)
    have hle := keyCount_le_one id (buildToolResultMap entries) hnd
    have hne : outcomesFor entries id ≠ [] := by
      intro hh
      rw [hh] at h
      simp at h
    have hvs : (outcomesFor entries id).getLast?.isSome :=
      List.getLast?_isSome.mpr hne
    obtain ⟨v, hv⟩ := Option.isSome_iff_exists.mp hvs
    have hge := keyCount_pos_of_lookup id (buildToolResultMap entries) v
      (by rw [hlook, hv])
    omega
  · exact hlook

/-- C3, witness: on the concrete log with two outcomes for id `"t1"`, the map
holds one entry for `"t1"` and its value is the second (last) outcome. -/
theorem c3_duplicate_outcomes_witness :
    keyCount (("t1").toList) (buildToolResultMap c3log) = 1 ∧
    objLookup (("t1").toList) (buildToolResultMap c3log) =
      some ⟨("second").toList, true⟩ := by
  have h := c3_duplicate_outcomes_last_wins c3log (("t1").toList) (by decide)
  refine ⟨h.1, ?_⟩
  rw [h.2]
  decide

/-- One digest iteration adds `digestDelta` to the accumulator and bumps the
turn counter exactly on turn-opening records. -/
theorem digestStep_eq (st : Nat × List DigestEntry) (e : Entry) :
    digestStep st e =
      (st.1 + (if turnOpening e then 1 else 0), st.2 ++ digestDelta st.1 e) := by
  obtain ⟨n, acc⟩ := st
  unfold digestStep digestDelta turnOpening
  cases hb : blocksOf e with
  | none => simp
  | some content =>
    by_cases hu : isUserConv e
    · by_cases htr : content.any isToolResultBlock
      · simp [hu, htr]
      · by_cases hte : (userDigestText content).isEmpty
        · simp [hu, htr, hte]
        · simp [hu, htr, hte]
    · by_cases ha : isAssistantConv e
      · by_cases hte : (assistantDigestText content).isEmpty
        · simp [hu, ha, hte]
        · simp [hu, ha, hte]
      · simp [hu, ha]

/-- `countOpen` over a cons. -/
theorem countOpen_cons (e : Entry) (rest : List Entry) :
    countOpen (e :: rest) = (if turnOpening e then 1 else 0) + countOpen rest := by
  unfold countOpen
  rw [List.filter_cons]
  by_cases ho : turnOpening e
  · simp [ho, Nat.add_comm]
  · simp [ho]

/-- The digest fold from any starting state: the counter gains `countOpen`
and the accumulator gains `digestFrom`. -/
theorem digestFold_eq (entries : List Entry) :
    ∀ st : Nat × List DigestEntry,
      entries.foldl digestStep st =
        (st.1 + countOpen entries, st.2 ++ digestFrom st.1 entries) := by
  induction entries with
  | nil =>
    intro st
    simp [countOpen, digestFrom]
  | cons e rest ih =>
    intro st
    rw [List.foldl_cons, digestStep_eq, ih, countOpen_cons]
    rw [show digestFrom st.1 (e :: rest) =
      digestDelta st.1 e ++
        digestFrom (st.1 + (if turnOpening e then 1 else 0)) rest from rfl]
    rw [Prod.mk.injEq]
    constructor
    · omega
    · simp [List.append_assoc]

/-- The digest equals `digestFrom` at counter zero. -/
theorem digestOf_eq (entries : List Entry) : digestOf entries = digestFrom 0 entries := by
  unfold digestOf digestScan
  rw [digestFold_eq]
  simp

/-- The final turn counter equals the number of turn-opening records. -/
theorem digestScan_fst (entries : List Entry) :
    (digestScan entries).1 = countOpen entries := by
  unfold digestScan
  rw [digestFold_eq]
  simp

/-- `digestFrom` over an append. -/
theorem digestFrom_append (l1 : List Entry) :
    ∀ (l2 : List Entry) (n : Nat),
      digestFrom n (l1 ++ l2) = digestFrom n l1 ++ digestFrom (n + countOpen l1) l2 := by
  induction l1 with
  | nil =>
    intro l2 n
    simp [digestFrom, countOpen]
  | cons e rest ih =>
    intro l2 n
    rw [List.cons_append]
    rw [show digestFrom n (e :: (rest ++ l2)) =
      digestDelta n e ++
        digestFrom (n + (if turnOpening e then 1 else 0)) (rest ++ l2) from rfl]
    rw [show digestFrom n (e :: rest) =
      digestDelta n e ++
        digestFrom (n + (if turnOpening e then 1 else 0)) rest from rfl]
    rw [ih, countOpen_cons, List.append_assoc]
    have : n + (if turnOpening e then 1 else 0) + countOpen rest =
        n + ((if turnOpening e then 1 else 0) + countOpen rest) := by omega
    rw [this]

/-- An assistant record is not a user record. -/
theorem not_user_of_assistant (e : Entry) (h : isAssistantConv e = true) :
    isUserConv e = false := by
  unfold isAssistantConv at h
  unfold isUserConv
  rcases Bool.and_eq_true_iff.mp h with ⟨ht, _⟩
  have htype : e.type = sAssistant := of_decide_eq_true ht
  have : (decide (e.type = sUser)) = false := by
    rw [htype]
    decide
  rw [this]
  rfl

/-- The digest grows by exactly one assistant segment, numbered with the
count of previously opened user turns, when record `k` is an assistant
conversational record with text. -/
theorem digest_assistant_step (entries : List Entry) (k : Nat) (e : Entry)
    (hk : entries[k]? = some e) (ha : assistantWithText e = true) :
    digestOf (entries.take (k + 1)) =
      digestOf (entries.take k) ++
        [{ turn := countOpen (entries.take k), role := sAssistant,
           content := truncate (assistantDigestText ((blocksOf e).getD [])) 300 }] := by
  have htake : entries.take (k + 1) = entries.take k ++ [e] := by
    rw [List.take_succ, hk]
    rfl
  rw [htake, digestOf_eq, digestOf_eq, digestFrom_append]
  congr 1
  unfold assistantWithText at ha
  cases hb : blocksOf e with
  | none =>
    rw [hb] at ha
    exact absurd ha (by simp)
  | some content =>
    rw [hb] at ha
    rcases Bool.and_eq_true_iff.mp ha with ⟨hac, hne⟩
    have hu : isUserConv e = false := not_user_of_assistant e hac
    have hte : (assistantDigestText content).isEmpty = false := by
      cases hx : (assistantDigestText content).isEmpty
      · rfl
      · rw [hx] at hne
        exact absurd hne (by simp)
    rw [show digestFrom (0 + countOpen (entries.take k)) [e] =
      digestDelta (0 + countOpen (entries.take k)) e ++ [] from rfl]
    unfold digestDelta
    rw [hb]
    simp [hu, hac, hte]

/-- Per-role counting: the digest holds exactly one user segment per genuine
user conversational record with renderable text. -/
theorem digestFrom_user_count (entries : List Entry) :
    ∀ n : Nat,
      ((digestFrom n entries).filter (fun d => decide (d.role = sUser))).length =
        (entries.filter genuineUserText).length := by
  induction entries with
  | nil =>
    intro n
    rfl
  | cons e rest ih =>
    intro n
    rw [show digestFrom n (e :: rest) =
      digestDelta n e ++
        digestFrom (n + (if turnOpening e then 1 else 0)) rest from rfl]
    rw [List.filter_append, List.length_append, List.filter_cons]
    have key : ((digestDelta n e).filter (fun d => decide (d.role = sUser))).length =
        (if genuineUserText e then 1 else 0) := by
      unfold digestDelta genuineUserText turnOpening
      cases hb : blocksOf e with
      | none => simp
      | some content =>
        by_cases hu : isUserConv e
        · by_cases htr : content.any isToolResultBlock
          · simp [hu, htr]
          · by_cases hte : (userDigestText content).isEmpty
            · simp [hu, htr, hte]
            · simp [hu, htr, hte]
        · by_cases ha : isAssistantConv e
          · by_cases hte : (assistantDigestText content).isEmpty
            · simp [hu, ha, hte]
            · have hrole : (decide ((sAssistant : Str) = sUser)) = false := by decide
              simp [hu, ha, hte, hrole]
          · simp [hu, ha]
    rw [key, ih]
    by_cases hg : genuineUserText e
    · simp [hg, Nat.add_comm]
    · simp [hg]

/-- C2: turn segmentation of the conversation digest.  (a) The digest holds
exactly one user-role segment per genuine user conversational record (a
turn-opening record with renderable text, per the specification's definition
of a genuine conversational exchange); (b) the turn counter is incremented by
every user record that is not a tool-result container, and only by those; (c)
an assistant conversational record is emitted under the turn number most
recently opened, i.e. the number of turn-opening user records preceding it. -/
theorem c2_turn_segment_counts (entries : List Entry) :
    (((digestOf entries).filter (fun d => decide (d.role = sUser))).length =
        (entries.filter genuineUserText).length) ∧
    ((digestScan entries).1 = countOpen entries) ∧
    (∀ (k : Nat) (e : Entry), entries[k]? = some e → assistantWithText e = true →
      digestOf (entries.take (k + 1)) =
        digestOf (entries.take k) ++
          [{ turn := countOpen (entries.take k), role := sAssistant,
             content := truncate (assistantDigestText ((blocksOf e).getD [])) 300 }]) := by
  refine ⟨?_, digestScan_fst entries, ?_⟩
  · rw [digestOf_eq]
    exact digestFrom_user_count entries 0
  · intro k e hk ha
    exact digest_assistant_step entries k e hk ha

/-- C2, witness: on the concrete log `[user "hi", assistant "yo"]` the digest
holds one user segment, and the assistant record is appended under the turn
opened by the user record. -/
theorem c2_turn_segment_counts_witness :
    (((digestOf c2log).filter (fun d => decide (d.role = sUser))).length =
        (c2log.filter genuineUserText).length) ∧
    digestOf (c2log.take 2) =
      digestOf (c2log.take 1) ++
        [{ turn := countOpen (c2log.take 1), role := sAssistant,
           content := truncate
             (assistantDigestText ((blocksOf (mkAssistantEntry (("yo").toList))).getD []))
             300 }] := by
  refine ⟨(c2_turn_segment_counts c2log).1, ?_⟩
  exact (c2_turn_segment_counts c2log).2.2 1 (mkAssistantEntry (("yo").toList))
    (by decide) (by decide)

/-- C10: an assistant text record preceded by no turn-opening user record is
emitted into the digest with turn number 0, a turn no user record opened. -/
theorem c10_assistant_turn_zero (entries : List Entry) (k : Nat) (e : Entry)
    (hk : entries[k]? = some e) (ha : assistantWithText e = true)
    (hpre : ∀ e' ∈ entries.take k, turnOpening e' = false) :
    ({ turn := 0, role := sAssistant,
       content := truncate (assistantDigestText ((blocksOf e).getD [])) 300 } :
      DigestEntry) ∈ digestOf entries := by
  have hcount : countOpen (entries.take k) = 0 := by
    unfold countOpen
    rw [List.length_eq_zero, List.filter_eq_nil_iff]
    intro a ha'
    simp [hpre a ha']
  have hstep := digest_assistant_step entries k e hk ha
  rw [hcount] at hstep
  have hsplit : entries = entries.take (k + 1) ++ entries.drop (k + 1) :=
    (List.take_append_drop _ _).symm
  have hdig : digestOf entries =
      digestOf (entries.take (k + 1)) ++
        digestFrom (0 + countOpen (entries.take (k + 1))) (entries.drop (k + 1)) := by
    conv_lhs => rw [hsplit]
    rw [digestOf_eq, digestFrom_append, ← digestOf_eq]
  rw [hdig, hstep]
  simp [List.mem_append]

/-- C10, witness: the log whose only record is the assistant text `"hello"`
yields a digest entry with role assistant and turn 0. -/
theorem c10_assistant_turn_zero_witness :
    ({ turn := 0, role := sAssistant,
       content := truncate
         (assistantDigestText ((blocksOf (mkAssistantEntry (("hello").toList))).getD []))
         300 } : DigestEntry) ∈ digestOf c10log := by
  exact c10_assistant_turn_zero c10log 0 (mkAssistantEntry (("hello").toList))
    (by decide) (by decide) (by intro e' he'; simp [c10log] at he')

/-- `stepCount` component: the counter. -/
theorem stepCount_count (st : ExtractState) :
    (stepCount st).toolCallCount = st.toolCallCount + 1 := rfl

/-- `stepCount` component: actions. -/
theorem stepCount_actions (st : ExtractState) : (stepCount st).actions = st.actions := rfl

/-- `stepCount` component: user messages. -/
theorem stepCount_msgs (st : ExtractState) :
    (stepCount st).userMessages = st.userMessages := rfl

/-- `stepCount` component: file changes. -/
theorem stepCount_fc (st : ExtractState) :
    (stepCount st).fileChanges = st.fileChanges := rfl

/-- `stepErrors` component: the counter. -/
theorem stepErrors_count (cfg : Config) (n : Str) (i : ToolInput) (r : Option TRVal)
    (st : ExtractState) : (stepErrors cfg n i r st).toolCallCount = st.toolCallCount := by
  unfold stepErrors
  split
  · split <;> rfl
  · rfl

/-- `stepErrors` component: actions. -/
theorem stepErrors_actions (cfg : Config) (n : Str) (i : ToolInput) (r : Option TRVal)
    (st : ExtractState) : (stepErrors cfg n i r st).actions = st.actions := by
  unfold stepErrors
  split
  · split <;> rfl
  · rfl

/-- `stepErrors` component: user messages. -/
theorem stepErrors_msgs (cfg : Config) (n : Str) (i : ToolInput) (r : Option TRVal)
    (st : ExtractState) : (stepErrors cfg n i r st).userMessages = st.userMessages := by
  unfold stepErrors
  split
  · split <;> rfl
  · rfl

/-- `stepErrors` component: file changes. -/
theorem stepErrors_fc (cfg : Config) (n : Str) (i : ToolInput) (r : Option TRVal)
    (st : ExtractState) : (stepErrors cfg n i r st).fileChanges = st.fileChanges := by
  unfold stepErrors
  split
  · split <;> rfl
  · rfl

/-- `stepFiles` component: the counter. -/
theorem stepFiles_count (cfg : Config) (n : Str) (i : ToolInput) (st : ExtractState) :
    (stepFiles cfg n i st).toolCallCount = st.toolCallCount := by
  unfold stepFiles
  split
  · rfl
  · split <;> rfl

/-- `stepFiles` component: actions. -/
theorem stepFiles_actions (cfg : Config) (n : Str) (i : ToolInput) (st : ExtractState) :
    (stepFiles cfg n i st).actions = st.actions := by
  unfold stepFiles
  split
  · rfl
  · split <;> rfl

/-- `stepFiles` component: user messages. -/
theorem stepFiles_msgs (cfg : Config) (n : Str) (i : ToolInput) (st : ExtractState) :
    (stepFiles cfg n i st).userMessages = st.userMessages := by
  unfold stepFiles
  split
  · rfl
  · split <;> rfl

/-- `stepFiles` component: file changes, driven by the `Write`/`Edit` op. -/
theorem stepFiles_fc (cfg : Config) (n : Str) (i : ToolInput) (st : ExtractState) :
    (stepFiles cfg n i st).fileChanges =
      (match weOpOf cfg n i with
       | some op => applyWE st.fileChanges op
       | none => st.fileChanges) := by
  unfold stepFiles
  cases h : weOpOf cfg n i with
  | none =>
    dsimp only
    split <;> rfl
  | some op => rfl

/-- `stepBash` component: actions gain the notable-command entry. -/
theorem stepBash_actions (n : Str) (i : ToolInput) (r : Option TRVal)
    (st : ExtractState) :
    (stepBash n i r st).actions = st.actions ++ (bashActionOf n i r).toList := by
  unfold stepBash
  cases h : bashActionOf n i r <;> simp

/-- `stepBash` component: the counter. -/
theorem stepBash_count (n : Str) (i : ToolInput) (r : Option TRVal) (st : ExtractState) :
    (stepBash n i r st).toolCallCount = st.toolCallCount := by
  unfold stepBash
  split <;> rfl

/-- `stepBash` component: user messages. -/
theorem stepBash_msgs (n : Str) (i : ToolInput) (r : Option TRVal) (st : ExtractState) :
    (stepBash n i r st).userMessages = st.userMessages := by
  unfold stepBash
  split <;> rfl

/-- `stepBash` component: file changes. -/
theorem stepBash_fc (n : Str) (i : ToolInput) (r : Option TRVal) (st : ExtractState) :
    (stepBash n i r st).fileChanges = st.fileChanges := by
  unfold stepBash
  split <;> rfl

/-- `stepSearch` components: everything but `searches` is unchanged. -/
theorem stepSearch_proj (cfg : Config) (n : Str) (i : ToolInput) (r : Option TRVal)
    (st : ExtractState) :
    (stepSearch cfg n i r st).toolCallCount = st.toolCallCount ∧
    (stepSearch cfg n i r st).actions = st.actions ∧
    (stepSearch cfg n i r st).userMessages = st.userMessages ∧
    (stepSearch cfg n i r st).fileChanges = st.fileChanges := by
  unfold stepSearch
  split <;> exact ⟨rfl, rfl, rfl, rfl⟩

/-- `stepTodo` components: everything but `latestTodos` is unchanged. -/
theorem stepTodo_proj (n : Str) (i : ToolInput) (st : ExtractState) :
    (stepTodo n i st).toolCallCount = st.toolCallCount ∧
    (stepTodo n i st).actions = st.actions ∧
    (stepTodo n i st).userMessages = st.userMessages ∧
    (stepTodo n i st).fileChanges = st.fileChanges := by
  unfold stepTodo
  split <;> exact ⟨rfl, rfl, rfl, rfl⟩

/-- `stepTask` component: actions gain the delegation entry. -/
theorem stepTask_actions (n : Str) (i : ToolInput) (r : Option TRVal)
    (st : ExtractState) :
    (stepTask n i r st).actions = st.actions ++ (taskActionOf n i r).toList := by
  unfold stepTask
  cases h : taskActionOf n i r <;> simp

/-- `stepTask` component: the counter. -/
theorem stepTask_count (n : Str) (i : ToolInput) (r : Option TRVal) (st : ExtractState) :
    (stepTask n i r st).toolCallCount = st.toolCallCount := by
  unfold stepTask
  split <;> rfl

/-- `stepTask` component: user messages. -/
theorem stepTask_msgs (n : Str) (i : ToolInput) (r : Option TRVal) (st : ExtractState) :
    (stepTask n i r st).userMessages = st.userMessages := by
  unfold stepTask
  split <;> rfl

/-- `stepTask` component: file changes. -/
theorem stepTask_fc (n : Str) (i : ToolInput) (r : Option TRVal) (st : ExtractState) :
    (stepTask n i r st).fileChanges = st.fileChanges := by
  unfold stepTask
  split <;> rfl

/-- One block bumps the counter exactly when it is a `tool_use` block. -/
theorem processBlock_count (cfg : Config) (trmap : List (Str × TRVal))
    (st : ExtractState) (b : Block) :
    (processBlock cfg trmap st b).toolCallCount =
      st.toolCallCount + (if isToolUseBlock b then 1 else 0) := by
  cases b with
  | toolUse n id i =>
    show (stepTask n i (resultFor trmap id) _).toolCallCount = _
    rw [stepTask_count, (stepTodo_proj n i _).1, (stepSearch_proj cfg n i _ _).1,
      stepBash_count, stepFiles_count, stepErrors_count, stepCount_count]
    rfl
  | text t => rfl
  | thinking t => rfl
  | toolResult a b c => rfl
  | image => rfl
  | otherBlock => rfl

/-- One block appends exactly its action items to the `actions` list. -/
theorem processBlock_actions (cfg : Config) (trmap : List (Str × TRVal))
    (st : ExtractState) (b : Block) :
    (processBlock cfg trmap st b).actions = st.actions ++ actionItemsOf trmap b := by
  cases b with
  | toolUse n id i =>
    show (stepTask n i (resultFor trmap id) _).actions = _
    rw [stepTask_actions, (stepTodo_proj n i _).2.1, (stepSearch_proj cfg n i _ _).2.1,
      stepBash_actions, stepFiles_actions, stepErrors_actions, stepCount_actions]
    rw [show actionItemsOf trmap (Block.toolUse n id i) =
      (bashActionOf n i (resultFor trmap id)).toList ++
        (taskActionOf n i (resultFor trmap id)).toList from rfl]
    rw [List.append_assoc]
  | text t => simp [processBlock, actionItemsOf]
  | thinking t => simp [processBlock, actionItemsOf]
  | toolResult a b c => simp [processBlock, actionItemsOf]
  | image => simp [processBlock, actionItemsOf]
  | otherBlock => simp [processBlock, actionItemsOf]

/-- No block changes the collected user messages. -/
theorem processBlock_msgs (cfg : Config) (trmap : List (Str × TRVal))
    (st : ExtractState) (b : Block) :
    (processBlock cfg trmap st b).userMessages = st.userMessages := by
  cases b with
  | toolUse n id i =>
    show (stepTask n i (resultFor trmap id) _).userMessages = _
    rw [stepTask_msgs, (stepTodo_proj n i _).2.2.1, (stepSearch_proj cfg n i _ _).2.2.1,
      stepBash_msgs, stepFiles_msgs, stepErrors_msgs, stepCount_msgs]
  | text t => rfl
  | thinking t => rfl
  | toolResult a b c => rfl
  | image => rfl
  | otherBlock => rfl

/-- One block applies exactly its `Write`/`Edit` op to the file-change map. -/
theorem processBlock_fc (cfg : Config) (trmap : List (Str × TRVal))
    (st : ExtractState) (b : Block) :
    (processBlock cfg trmap st b).fileChanges =
      (match weOpOfBlock cfg b with
       | some op => applyWE st.fileChanges op
       | none => st.fileChanges) := by
  cases b with
  | toolUse n id i =>
    show (stepTask n i (resultFor trmap id) _).fileChanges = _
    rw [stepTask_fc, (stepTodo_proj n i _).2.2.2, (stepSearch_proj cfg n i _ _).2.2.2,
      stepBash_fc, stepFiles_fc, stepErrors_fc, stepCount_fc]
    rfl
  | text t => rfl
  | thinking t => rfl
  | toolResult a b c => rfl
  | image => rfl
  | otherBlock => rfl

/-- The block fold's counter gains one per `tool_use` block. -/
theorem blocksFold_count (cfg : Config) (trmap : List (Str × TRVal))
    (content : List Block) :
    ∀ st : ExtractState,
      (content.foldl (processBlock cfg trmap) st).toolCallCount =
        st.toolCallCount + (content.filter isToolUseBlock).length := by
  induction content with
  | nil =>
    intro st
    simp
  | cons b rest ih =>
    intro st
    rw [List.foldl_cons, ih, processBlock_count, List.filter_cons]
    by_cases hb : isToolUseBlock b <;> simp [hb] <;> omega

/-- The block fold appends the blocks' action items, in order. -/
theorem blocksFold_actions (cfg : Config) (trmap : List (Str × TRVal))
    (content : List Block) :
    ∀ st : ExtractState,
      (content.foldl (processBlock cfg trmap) st).actions =
        st.actions ++ content.flatMap (actionItemsOf trmap) := by
  induction content with
  | nil =>
    intro st
    simp
  | cons b rest ih =>
    intro st
    rw [List.foldl_cons, ih, processBlock_actions, List.flatMap_cons, List.append_assoc]

/-- The block fold never touches the collected user messages. -/
theorem blocksFold_msgs (cfg : Config) (trmap : List (Str × TRVal))
    (content : List Block) :
    ∀ st : ExtractState,
      (content.foldl (processBlock cfg trmap) st).userMessages = st.userMessages := by
  induction content with
  | nil =>
    intro st
    rfl
  | cons b rest ih =>
    intro st
    rw [List.foldl_cons, ih, processBlock_msgs]

/-- The block fold applies the blocks' `Write`/`Edit` ops, in order. -/
theorem blocksFold_fc (cfg : Config) (trmap : List (Str × TRVal))
    (content : List Block) :
    ∀ st : ExtractState,
      (content.foldl (processBlock cfg trmap) st).fileChanges =
        List.foldl applyWE st.fileChanges (content.filterMap (weOpOfBlock cfg)) := by
  induction content with
  | nil =>
    intro st
    rfl
  | cons b rest ih =>
    intro st
    rw [List.foldl_cons, ih, processBlock_fc, List.filterMap_cons]
    cases h : weOpOfBlock cfg b with
    | none => rfl
    | some op => rfl

/-- Action items vanish on non-`tool_use` blocks, so filtering first changes
nothing. -/
theorem flatMap_filter_toolUse (trmap : List (Str × TRVal)) (content : List Block) :
    (content.filter isToolUseBlock).flatMap (actionItemsOf trmap) =
      content.flatMap (actionItemsOf trmap) := by
  induction content with
  | nil => rfl
  | cons b rest ih =>
    rw [List.filter_cons]
    cases b with
    | toolUse n id i => simp [isToolUseBlock, List.flatMap_cons, ih]
    | text t => simp [isToolUseBlock, actionItemsOf, List.flatMap_cons, ih]
    | thinking t => simp [isToolUseBlock, actionItemsOf, List.flatMap_cons, ih]
    | toolResult a b c => simp [isToolUseBlock, actionItemsOf, List.flatMap_cons, ih]
    | image => simp [isToolUseBlock, actionItemsOf, List.flatMap_cons, ih]
    | otherBlock => simp [isToolUseBlock, actionItemsOf, List.flatMap_cons, ih]

/-- `Write`/`Edit` ops vanish on non-`tool_use` blocks, so filtering first
changes nothing. -/
theorem filterMap_filter_toolUse (cfg : Config) (content : List Block) :
    (content.filter isToolUseBlock).filterMap (weOpOfBlock cfg) =
      content.filterMap (weOpOfBlock cfg) := by
  induction content with
  | nil => rfl
  | cons b rest ih =>
    rw [List.filter_cons]
    cases b with
    | toolUse n id i => simp [isToolUseBlock, List.filterMap_cons, ih]
    | text t => simp [isToolUseBlock, weOpOfBlock, List.filterMap_cons, ih]
    | thinking t => simp [isToolUseBlock, weOpOfBlock, List.filterMap_cons, ih]
    | toolResult a b c => simp [isToolUseBlock, weOpOfBlock, List.filterMap_cons, ih]
    | image => simp [isToolUseBlock, weOpOfBlock, List.filterMap_cons, ih]
    | otherBlock => simp [isToolUseBlock, weOpOfBlock, List.filterMap_cons, ih]

/-- One record bumps the counter by its number of visited `tool_use` blocks. -/
theorem processEntry_count (cfg : Config) (trmap : List (Str × TRVal))
    (st : ExtractState) (e : Entry) :
    (processEntry cfg trmap st e).toolCallCount =
      st.toolCallCount + (entryToolUses e).length := by
  unfold processEntry entryToolUses
  cases hb : blocksOf e with
  | none => simp
  | some content =>
    by_cases hu : isUserConv e
    · by_cases htr : content.any isToolResultBlock
      · simp [hu, htr]
      · simp [hu, htr]
    · by_cases ha : isAssistantConv e
      · simp [hu, ha, blocksFold_count]
      · simp [hu, ha]

/-- One record appends its blocks' action items. -/
theorem processEntry_actions (cfg : Config) (trmap : List (Str × TRVal))
    (st : ExtractState) (e : Entry) :
    (processEntry cfg trmap st e).actions =
      st.actions ++ (entryToolUses e).flatMap (actionItemsOf trmap) := by
  unfold processEntry entryToolUses
  cases hb : blocksOf e with
  | none => simp
  | some content =>
    by_cases hu : isUserConv e
    · by_cases htr : content.any isToolResultBlock
      · simp [hu, htr]
      · simp [hu, htr]
    · by_cases ha : isAssistantConv e
      · simp [hu, ha, blocksFold_actions, flatMap_filter_toolUse]
      · simp [hu, ha]

/-- One record appends its user text fragments. -/
theorem processEntry_msgs (cfg : Config) (trmap : List (Str × TRVal))
    (st : ExtractState) (e : Entry) :
    (processEntry cfg trmap st e).userMessages =
      st.userMessages ++ entryUserMsgs e := by
  unfold processEntry entryUserMsgs
  cases hb : blocksOf e with
  | none => simp
  | some content =>
    by_cases hu : isUserConv e
    · by_cases htr : content.any isToolResultBlock
      · simp [hu, htr]
      · simp [hu, htr]
    · by_cases ha : isAssistantConv e
      · simp [hu, ha, blocksFold_msgs]
      · simp [hu, ha]

/-- One record applies its blocks' `Write`/`Edit` ops. -/
theorem processEntry_fc (cfg : Config) (trmap : List (Str × TRVal))
    (st : ExtractState) (e : Entry) :
    (processEntry cfg trmap st e).fileChanges =
      List.foldl applyWE st.fileChanges
        ((entryToolUses e).filterMap (weOpOfBlock cfg)) := by
  unfold processEntry entryToolUses
  cases hb : blocksOf e with
  | none => simp
  | some content =>
    by_cases hu : isUserConv e
    · by_cases htr : content.any isToolResultBlock
      · simp [hu, htr]
      · simp [hu, htr]
    · by_cases ha : isAssistantConv e
      · simp [hu, ha, blocksFold_fc, filterMap_filter_toolUse]
      · simp [hu, ha]

/-- The record fold's counter equals the total number of visited `tool_use`
blocks. -/
theorem entriesFold_count (cfg : Config) (trmap : List (Str × TRVal))
    (entries : List Entry) :
    ∀ st : ExtractState,
      (entries.foldl (processEntry cfg trmap) st).toolCallCount =
        st.toolCallCount + (toolUsesOf entries).length := by
  induction entries with
  | nil =>
    intro st
    simp [toolUsesOf]
  | cons e rest ih =>
    intro st
    rw [List.foldl_cons, ih, processEntry_count]
    unfold toolUsesOf
    rw [List.flatMap_cons, List.length_append]
    omega

/-- The record fold accumulates the logs' action items, in file order. -/
theorem entriesFold_actions (cfg : Config) (trmap : List (Str × TRVal))
    (entries : List Entry) :
    ∀ st : ExtractState,
      (entries.foldl (processEntry cfg trmap) st).actions =
        st.actions ++ (toolUsesOf entries).flatMap (actionItemsOf trmap) := by
  induction entries with
  | nil =>
    intro st
    simp [toolUsesOf]
  | cons e rest ih =>
    intro st
    rw [List.foldl_cons, ih, processEntry_actions]
    unfold toolUsesOf
    rw [List.flatMap_cons, List.flatMap_append, List.append_assoc]

/-- The record fold accumulates the user text fragments, in file order. -/
theorem entriesFold_msgs (cfg : Config) (trmap : List (Str × TRVal))
    (entries : List Entry) :
    ∀ st : ExtractState,
      (entries.foldl (processEntry cfg trmap) st).userMessages =
        st.userMessages ++ userMsgsOf entries := by
  induction entries with
  | nil =>
    intro st
    simp [userMsgsOf]
  | cons e rest ih =>
    intro st
    rw [List.foldl_cons, ih, processEntry_msgs]
    unfold userMsgsOf
    rw [List.flatMap_cons, List.append_assoc]

/-- The record fold applies the log's `Write`/`Edit` ops, in file order. -/
theorem entriesFold_fc (cfg : Config) (trmap : List (Str × TRVal))
    (entries : List Entry) :
    ∀ st : ExtractState,
      (entries.foldl (processEntry cfg trmap) st).fileChanges =
        List.foldl applyWE st.fileChanges (weOps cfg entries) := by
  induction entries with
  | nil =>
    intro st
    rfl
  | cons e rest ih =>
    intro st
    rw [List.foldl_cons, ih, processEntry_fc]
    unfold weOps toolUsesOf
    rw [List.flatMap_cons, List.filterMap_append, List.foldl_append]

/-- `optList` only ever wraps the non-empty source list. -/
theorem optList_some (l l' : List α) (h : optList l = some l') : l' = l ∧ l ≠ [] := by
  unfold optList at h
  by_cases he : l.isEmpty
  · rw [if_pos he] at h
    exact absurd h (by simp)
  · rw [if_neg he] at h
    refine ⟨(Option.some_injective _ h).symm, ?_⟩
    intro hnil
    rw [hnil] at he
    exact he rfl

/-- Deduplicating a non-empty search list keeps its head. -/
theorem dedupSearches_cons_ne_nil (s : SearchEntry) (rest : List SearchEntry) :
    dedupSearches (s :: rest) ≠ [] := by
  unfold dedupSearches dedupSearchesAux
  simp

/-- C5: the compact projection never emits an empty optional field.  For each
of `errors`, `actions`, `searches` and `uncommitted_changes`: when present,
the underlying collection is non-empty; when the collection is empty, the
field is omitted (`none`, i.e. the key is dropped by the JSON round trip). -/
theorem c5_optional_fields_nonempty (cfg : Config) (entries : List Entry) (sid : Str)
    (git : GitCtx) :
    (∀ l, (extractHandoff cfg entries sid git).errors = some l → l ≠ []) ∧
    ((scanState cfg entries).errors = [] →
      (extractHandoff cfg entries sid git).errors = none) ∧
    (∀ l, (extractHandoff cfg entries sid git).actions = some l → l ≠ []) ∧
    ((scanState cfg entries).actions = [] →
      (extractHandoff cfg entries sid git).actions = none) ∧
    (∀ s, (extractHandoff cfg entries sid git).searches = some s →
      s.unique_patterns ≠ [] ∧ 0 < s.count ∧ (scanState cfg entries).searches ≠ []) ∧
    ((scanState cfg entries).searches = [] →
      (extractHandoff cfg entries sid git).searches = none) ∧
    (∀ l, (extractHandoff cfg entries sid git).git_context.uncommitted_changes = some l →
      l ≠ [] ∧ git.uncommitted_files ≠ []) ∧
    (git.uncommitted_files = [] →
      (extractHandoff cfg entries sid git).git_context.uncommitted_changes = none) := by
  have herr : (extractHandoff cfg entries sid git).errors =
      optList (scanState cfg entries).errors := rfl
  have hact : (extractHandoff cfg entries sid git).actions =
      optList (scanState cfg entries).actions := rfl
  have hsea : (extractHandoff cfg entries sid git).searches =
      (if (dedupSearches (scanState cfg entries).searches).isEmpty then none
       else some { count := (scanState cfg entries).searches.length,
                   unique_patterns := dedupSearches (scanState cfg entries).searches }) :=
    rfl
  have hgit : (extractHandoff cfg entries sid git).git_context.uncommitted_changes =
      (if git.uncommitted_files.isEmpty then none
       else some (git.uncommitted_files.take 20)) := rfl
  refine ⟨?_, ?_, ?_, ?_, ?_, ?_, ?_, ?_⟩
  · intro l hl
    rw [herr] at hl
    exact (optList_some _ _ hl).1 ▸ (optList_some _ _ hl).2
  · intro hnil
    rw [herr, hnil]
    rfl
  · intro l hl
    rw [hact] at hl
    exact (optList_some _ _ hl).1 ▸ (optList_some _ _ hl).2
  · intro hnil
    rw [hact, hnil]
    rfl
  · intro s hs
    rw [hsea] at hs
    by_cases he : (dedupSearches (scanState cfg entries).searches).isEmpty
    · rw [if_pos he] at hs
      exact absurd hs (by simp)
    · rw [if_neg he] at hs
      have hs' := Option.some_injective _ hs
      have hraw : (scanState cfg entries).searches ≠ [] := by
        intro hnil
        rw [hnil] at he
        exact he rfl
      refine ⟨?_, ?_, hraw⟩
      · rw [← hs']
        intro hnil
        simp only at hnil
        rw [hnil] at he
        exact he rfl
      · rw [← hs']
        show 0 < (scanState cfg entries).searches.length
        exact List.length_pos.mpr hraw
  · intro hnil
    rw [hsea, hnil]
    rfl
  · intro l hl
    rw [hgit] at hl
    by_cases he : git.uncommitted_files.isEmpty
    · rw [if_pos he] at hl
      exact absurd hl (by simp)
    · rw [if_neg he] at hl
      have hl' := Option.some_injective _ hl
      have hne : git.uncommitted_files ≠ [] := by
        intro hnil
        rw [hnil] at he
        exact he rfl
      refine ⟨?_, hne⟩
      rw [← hl']
      intro htake
      rcases List.take_eq_nil_iff.mp htake with h20 | hfiles
      · exact absurd h20 (by decide)
      · exact hne hfiles
  · intro hnil
    rw [hgit, hnil]
    rfl

/-- C5, witness: on an empty log with a clean git context every optional
field of the handoff is omitted. -/
theorem c5_optional_fields_witness :
    (extractHandoff cfg0 [] sid0 git0).errors = none ∧
    (extractHandoff cfg0 [] sid0 git0).actions = none ∧
    (extractHandoff cfg0 [] sid0 git0).searches = none ∧
    (extractHandoff cfg0 [] sid0 git0).git_context.uncommitted_changes = none := by
  have h := c5_optional_fields_nonempty cfg0 [] sid0 git0
  exact ⟨h.2.1 (by decide), h.2.2.2.1 (by decide), h.2.2.2.2.2.1 (by decide),
    h.2.2.2.2.2.2.2 (by decide)⟩

/-- Pointwise: the pushed fragment of one block is the cleaned text of the
block, truncated to 500. -/
theorem userTextF_eq (b : Block) :
    userTextF b = (cleanedF b).map (fun t => truncate t 500) := by
  cases b with
  | text t =>
    unfold userTextF cleanedF
    by_cases hc : (stripSystemTags t).isEmpty
    · simp [hc]
    · simp [hc]
  | thinking t => rfl
  | toolUse n id i => rfl
  | toolResult a b c => rfl
  | image => rfl
  | otherBlock => rfl

/-- The pushed user fragments are the cleaned texts, each truncated to 500. -/
theorem userTextsOf_eq (content : List Block) :
    userTextsOf content = (cleanedTexts content).map (fun t => truncate t 500) := by
  unfold userTextsOf cleanedTexts
  rw [List.map_filterMap]
  induction content with
  | nil => rfl
  | cons b rest ih =>
    rw [List.filterMap_cons, List.filterMap_cons, userTextF_eq]
    cases hfb : cleanedF b with
    | none => simpa using ih
    | some v => simpa using ih

/-- The collected user messages are the truncations of the genuine user
records' cleaned texts, in file order. -/
theorem userMsgsOf_eq (entries : List Entry) :
    userMsgsOf entries =
      (entries.flatMap (fun e =>
        match blocksOf e with
        | none => []
        | some content =>
          if isUserConv e then
            if content.any isToolResultBlock then [] else cleanedTexts content
          else [])).map (fun t => truncate t 500) := by
  induction entries with
  | nil => rfl
  | cons e rest ih =>
    unfold userMsgsOf
    rw [List.flatMap_cons, List.flatMap_cons, List.map_append]
    unfold userMsgsOf at ih
    rw [ih]
    congr 1
    unfold entryUserMsgs
    cases hb : blocksOf e with
    | none => rfl
    | some content =>
      by_cases hu : isUserConv e
      · by_cases htr : content.any isToolResultBlock
        · simp [hu, htr]
        · simp [hu, htr, userTextsOf_eq]
      · simp [hu]

/-- C6, counterexample: the `task` field is not the first user record's text
verbatim — the text `" hi"` is stored as `"hi"`, because the task is the
tag-stripped (hence trimmed) and 500-character-truncated text. -/
theorem c6_task_not_verbatim :
    (extractHandoff cfg0 c6log sid0 git0).task = ("hi").toList ∧
    ("hi").toList ≠ ((" hi").toList) := by
  constructor
  · decide
  · decide

/-- C6, amended: for a log with at least one genuine user conversational
record carrying a non-empty tag-stripped text block, the `task` field equals
that first cleaned text truncated to 500 characters with an ellipsis marker —
verbatim only when the text is short and free of system tags and surrounding
whitespace. -/
theorem c6_task_first_cleaned (cfg : Config) (entries : List Entry) (sid : Str)
    (git : GitCtx) (t : Str) (h : firstUserCleaned entries = some t) :
    (extractHandoff cfg entries sid git).task = truncate t 500 := by
  have htask : (extractHandoff cfg entries sid git).task =
      (((scanState cfg entries).userMessages.head?).getD
        (("(no task detected)").toList)) := rfl
  have hmsgs : (scanState cfg entries).userMessages = userMsgsOf entries := by
    unfold scanState
    rw [entriesFold_msgs]
    rfl
  rw [htask, hmsgs, userMsgsOf_eq, List.head?_map]
  unfold firstUserCleaned at h
  rw [h]
  rfl

/-- C6, witness: on the concrete one-record log the first cleaned text is
`"hi"` and the task equals its truncation. -/
theorem c6_task_first_cleaned_witness :
    (extractHandoff cfg0 c6log sid0 git0).task = truncate (("hi").toList) 500 :=
  c6_task_first_cleaned cfg0 c6log sid0 git0 (("hi").toList) (by decide)

/-- C8: (a) every `tool_use` block is counted in `tool_calls`; (b) the
`actions` list is exactly the per-block action items of the visited `tool_use`
blocks, in order (wrapped by the empty-omission rule); (c) a `Bash` block
contributes an action entry iff its trimmed command text is longer than 5
characters and does not start with `"echo "`. -/
theorem c8_bash_action_filter (cfg : Config) (entries : List Entry) (sid : Str)
    (git : GitCtx) :
    ((extractHandoff cfg entries sid git).session.tool_calls =
      (toolUsesOf entries).length) ∧
    ((extractHandoff cfg entries sid git).actions =
      optList ((toolUsesOf entries).flatMap
        (actionItemsOf (buildToolResultMap entries)))) ∧
    (∀ (n : Str) (id : Option Str) (i : ToolInput),
      (Block.toolUse n id i) ∈ toolUsesOf entries → n = ("Bash").toList →
      (actionItemsOf (buildToolResultMap entries) (Block.toolUse n id i) ≠ [] ↔
        ((jsTrim (i.command.getD [])).length > 5 ∧
         (("echo ").toList.isPrefixOf (jsTrim (i.command.getD []))) = false))) := by
  have hcount : (extractHandoff cfg entries sid git).session.tool_calls =
      (scanState cfg entries).toolCallCount := rfl
  have hactions : (extractHandoff cfg entries sid git).actions =
      optList (scanState cfg entries).actions := rfl
  refine ⟨?_, ?_, ?_⟩
  · rw [hcount]
    unfold scanState
    rw [entriesFold_count]
    simp [initState]
  · rw [hactions]
    unfold scanState
    rw [entriesFold_actions]
    rfl
  · intro n id i _ hn
    subst hn
    unfold actionItemsOf taskActionOf bashActionOf
    dsimp only
    have hnt : ¬ ((("Bash").toList : Str) = ("Task").toList) := by decide
    rw [if_neg hnt]
    by_cases htc : truthyStr i.command
    · rw [if_pos ⟨rfl, htc⟩]
      by_cases hcond : (jsTrim (i.command.getD [])).length > 5 ∧
          ¬(("echo ").toList.isPrefixOf (jsTrim (i.command.getD [])) = true)
      · rw [if_pos hcond]
        constructor
        · intro _
          exact ⟨hcond.1, eq_false_of_ne_true hcond.2⟩
        · intro _
          simp
      · rw [if_neg hcond]
        constructor
        · intro hne
          exact absurd rfl hne
        · intro hc
          refine absurd ⟨hc.1, ?_⟩ hcond
          intro hx
          rw [hc.2] at hx
          exact Bool.false_ne_true hx
    · rw [if_neg (fun hh => htc hh.2)]
      have hcmd : i.command.getD [] = [] := by
        cases hcv : i.command with
        | none => rfl
        | some s =>
          unfold truthyStr at htc
          rw [hcv] at htc
          simp at htc
          simp [htc]
      constructor
      · intro hne
        exact absurd rfl hne
      · intro hc
        rw [hcmd] at hc
        have hj : jsTrim ([] : Str) = [] := rfl
        rw [hj] at hc
        simp at hc

/-- C8, witness: on the concrete log the session counts both invocations, and
the echo invocation satisfies the exclusion criterion of the iff. -/
theorem c8_bash_action_filter_witness :
    ((extractHandoff cfg0 c8log sid0 git0).session.tool_calls =
      (toolUsesOf c8log).length) ∧
    (actionItemsOf (buildToolResultMap c8log)
        (Block.toolUse (("Bash").toList) (some (("t2").toList)) echoInput) ≠ [] ↔
      ((jsTrim (echoInput.command.getD [])).length > 5 ∧
       (("echo ").toList.isPrefixOf (jsTrim (echoInput.command.getD []))) = false)) := by
  have h := c8_bash_action_filter cfg0 c8log sid0 git0
  refine ⟨h.1, ?_⟩
  exact h.2.2 (("Bash").toList) (some (("t2").toList)) echoInput (by decide) rfl

/-- Looking up the key an op just wrote. -/
theorem objLookup_applyWE_same (m : List (Str × FileChange)) (p : Str × WEOp) :
    objLookup p.1 (applyWE m p) =
      some (match p.2 with
            | .write fc => fc
            | .edit fr => editApply (objLookup p.1 m) fr) := by
  cases hop : p.2 with
  | write fc =>
    unfold applyWE
    rw [hop, objLookup_objInsert, if_pos rfl]
  | edit fr =>
    unfold applyWE
    rw [hop, objLookup_objInsert, if_pos rfl]

/-- Looking up a different key than an op's target. -/
theorem objLookup_applyWE_other (m : List (Str × FileChange)) (p : Str × WEOp)
    (sp : Str) (h : ¬ (sp = p.1)) :
    objLookup sp (applyWE m p) = objLookup sp m := by
  cases hop : p.2 with
  | write fc =>
    unfold applyWE
    rw [hop, objLookup_objInsert, if_neg h]
  | edit fr =>
    unfold applyWE
    rw [hop, objLookup_objInsert, if_neg h]

/-- The `Edit` update always reports action `"modified"`. -/
theorem editApply_action (prior : Option FileChange) (frag : Option EditFrag) :
    (editApply prior frag).action = ("modified").toList := by
  cases prior <;> cases frag <;> rfl

/-- The last op for a path over an appended single op. -/
theorem lastWEFor_append_single (sp : Str) (ops : List (Str × WEOp)) (p : Str × WEOp) :
    lastWEFor sp (ops ++ [p]) =
      if p.1 = sp then some p.2 else lastWEFor sp ops := by
  unfold lastWEFor
  rw [List.filter_append, List.map_append]
  by_cases hk : p.1 = sp
  · have hfil : List.filter (fun q => decide (q.1 = sp)) [p] = [p] := by
      simp [hk]
    rw [hfil, if_pos hk, show (List.map (fun x => x.2) [p]) = [p.2] from rfl,
      List.getLast?_concat]
  · have hfil : List.filter (fun q => decide (q.1 = sp)) [p] = [] := by
      simp [hk]
    rw [hfil, if_neg hk]
    simp

/-- Folding `Write`/`Edit` ops: the looked-up value for a path is decided by
the last op recorded for that path. -/
theorem applyWE_foldl_lookup (ops : List (Str × WEOp)) :
    ∀ (m : List (Str × FileChange)) (sp : Str),
      (lastWEFor sp ops = none →
        objLookup sp (List.foldl applyWE m ops) = objLookup sp m) ∧
      (∀ fc, lastWEFor sp ops = some (.write fc) →
        objLookup sp (List.foldl applyWE m ops) = some fc) ∧
      (∀ fr, lastWEFor sp ops = some (.edit fr) →
        ∃ pr, objLookup sp (List.foldl applyWE m ops) = some (editApply pr fr)) := by
  induction ops using List.reverseRecOn with
  | nil =>
    intro m sp
    refine ⟨fun _ => rfl, ?_, ?_⟩
    · intro fc h
      exact absurd h (by simp [lastWEFor])
    · intro fr h
      exact absurd h (by simp [lastWEFor])
  | append_singleton rest p ih =>
    intro m sp
    rw [List.foldl_append]
    have hfold : List.foldl applyWE (List.foldl applyWE m rest) [p] =
        applyWE (List.foldl applyWE m rest) p := rfl
    rw [hfold, lastWEFor_append_single]
    by_cases hk : p.1 = sp
    · rw [if_pos hk]
      refine ⟨?_, ?_, ?_⟩
      · intro h
        exact absurd h (by simp)
      · intro fc h
        have hp2 : p.2 = WEOp.write fc := Option.some_injective _ h
        rw [← hk, objLookup_applyWE_same, hp2]
      · intro fr h
        have hp2 : p.2 = WEOp.edit fr := Option.some_injective _ h
        refine ⟨objLookup p.1 (List.foldl applyWE m rest), ?_⟩
        rw [← hk, objLookup_applyWE_same, hp2]
    · rw [if_neg hk]
      have hother : objLookup sp (applyWE (List.foldl applyWE m rest) p) =
          objLookup sp (List.foldl applyWE m rest) :=
        objLookup_applyWE_other _ _ _ (fun hh => hk hh.symm)
      rw [hother]
      exact ih m sp

/-- Every `write` op recorded by the scan carries action `"created"`, a
summary, and no edit fragments. -/
theorem weOps_write_shape (cfg : Config) (entries : List Entry) (p : Str × WEOp)
    (hp : p ∈ weOps cfg entries) (fc : FileChange) (hfc : p.2 = WEOp.write fc) :
    fc.action = ("created").toList ∧ fc.edits = none ∧ fc.summary.isSome := by
  unfold weOps at hp
  rw [List.mem_filterMap] at hp
  obtain ⟨b, _, hwe⟩ := hp
  cases b with
  | toolUse n id i =>
    unfold weOpOfBlock weOpOf at hwe
    dsimp only at hwe
    by_cases h1 : n = ("Write").toList ∧ truthyStr i.file_path
    · rw [if_pos h1] at hwe
      have hp2 := congrArg Prod.snd (Option.some_injective _ hwe)
      rw [hfc] at hp2
      cases hp2
      exact ⟨rfl, rfl, rfl⟩
    · rw [if_neg h1] at hwe
      by_cases h2 : n = ("Edit").toList ∧ truthyStr i.file_path
      · rw [if_pos h2] at hwe
        have hp2 := congrArg Prod.snd (Option.some_injective _ hwe)
        rw [hfc] at hp2
        exact absurd hp2 (by simp)
      · rw [if_neg h2] at hwe
        exact absurd hwe (by simp)
  | text t => exact absurd hwe (by simp [weOpOfBlock])
  | thinking t => exact absurd hwe (by simp [weOpOfBlock])
  | toolResult a b c => exact absurd hwe (by simp [weOpOfBlock])
  | image => exact absurd hwe (by simp [weOpOfBlock])
  | otherBlock => exact absurd hwe (by simp [weOpOfBlock])

/-- A recorded last op is among the recorded ops. -/
theorem lastWEFor_mem (sp : Str) (ops : List (Str × WEOp)) (op : WEOp)
    (h : lastWEFor sp ops = some op) : (sp, op) ∈ ops := by
  unfold lastWEFor at h
  have hmem := List.mem_of_getLast?_eq_some h
  rw [List.mem_map] at hmem
  obtain ⟨p, hp, hsnd⟩ := hmem
  rw [List.mem_filter] at hp
  have hfst : p.1 = sp := of_decide_eq_true hp.2
  have : p = (sp, op) := by
    obtain ⟨a, b⟩ := p
    simp only at hfst hsnd
    rw [hfst, hsnd]
  rw [← this]
  exact hp.1

/-- Finding a file's change entry in the assembled list is looking up the
file-change map. -/
theorem find?_map_assemble (l : List (Str × FileChange)) (sp : Str) :
    (l.map assembleChange).find? (fun c => c.file == sp) =
      (objLookup sp l).map (fun fc => assembleChange (sp, fc)) := by
  induction l with
  | nil => rfl
  | cons p rest ih =>
    obtain ⟨a, b⟩ := p
    rw [List.map_cons, List.find?_cons]
    have hlook : objLookup sp ((a, b) :: rest) =
        if sp = a then some b else objLookup sp rest := rfl
    rw [hlook]
    by_cases h : a = sp
    · have hbeq : ((assembleChange (a, b)).file == sp) = true := by
        unfold assembleChange
        simpa using h
      rw [hbeq, if_pos h.symm]
      dsimp only
      unfold assembleChange
      simp [h]
    · have hbeq : ((assembleChange (a, b)).file == sp) = false := by
        unfold assembleChange
        simpa using h
      rw [hbeq, if_neg (fun hh => h hh.symm)]
      dsimp only
      exact ih

/-- C9, amended: the change entry reported for a path is decided by the last
`Write`/`Edit` invocation for that path — a last `Write` yields action
`"created"` with any previously accumulated edit fragments discarded, a last
`Edit` yields action `"modified"`. -/
theorem c9_last_write_edit_wins (cfg : Config) (entries : List Entry) (sid : Str)
    (git : GitCtx) (sp : Str) :
    (∀ fc, lastWEFor sp (weOps cfg entries) = some (.write fc) →
      changeFor (extractHandoff cfg entries sid git) sp =
        some { file := sp, action := fc.action, summary := fc.summary,
               edits := none } ∧
      fc.action = ("created").toList) ∧
    (∀ fr, lastWEFor sp (weOps cfg entries) = some (.edit fr) →
      ∃ ce, changeFor (extractHandoff cfg entries sid git) sp = some ce ∧
        ce.action = ("modified").toList) := by
  have hfc : (scanState cfg entries).fileChanges =
      List.foldl applyWE [] (weOps cfg entries) := by
    unfold scanState
    rw [entriesFold_fc]
    rfl
  have hch : changeFor (extractHandoff cfg entries sid git) sp =
      (objLookup sp (List.foldl applyWE [] (weOps cfg entries))).map
        (fun fc => assembleChange (sp, fc)) := by
    unfold changeFor
    rw [show (extractHandoff cfg entries sid git).changes =
      ((scanState cfg entries).fileChanges).map assembleChange from rfl]
    rw [find?_map_assemble, hfc]
  constructor
  · intro fc hlast
    have hshape := weOps_write_shape cfg entries (sp, WEOp.write fc)
      (lastWEFor_mem sp _ _ hlast) fc rfl
    have hlook := (applyWE_foldl_lookup (weOps cfg entries) [] sp).2.1 fc hlast
    rw [hch, hlook]
    refine ⟨?_, hshape.1⟩
    have hass : assembleChange (sp, fc) =
        { file := sp, action := fc.action, summary := fc.summary, edits := none } := by
      unfold assembleChange
      rw [hshape.2.1]
    simp [hass]
  · intro fr hlast
    obtain ⟨pr, hlook⟩ := (applyWE_foldl_lookup (weOps cfg entries) [] sp).2.2 fr hlast
    rw [hch, hlook]
    refine ⟨assembleChange (sp, editApply pr fr), by simp, ?_⟩
    show (editApply pr fr).action = ("modified").toList
    exact editApply_action pr fr

/-- C9, counterexample to the claim as stated: in the log `c9log` a `Write`
of `a.txt` is followed later by an `Edit` of `a.txt`, yet the reported action
is `"created"`, not `"modified"` — because a still-later `Write` supersedes
the `Edit`. -/
theorem c9_write_after_edit_counterexample :
    (changeFor (extractHandoff cfg0 c9log sid0 git0) (("a.txt").toList)).map
      ChangeEntry.action = some (("created").toList) ∧
    ¬ ((("created").toList : Str) = ("modified").toList) := by
  constructor
  · decide
  · decide

/-- C9, witness: on `c9log` the last op for `a.txt` is a `Write`, so the
entry is `created` with the edit fragment discarded; on `c9log2` the last op
for `b.txt` is an `Edit`, so the entry is `modified`. -/
theorem c9_last_write_edit_wins_witness :
    (changeFor (extractHandoff cfg0 c9log sid0 git0) (("a.txt").toList) =
      some { file := ("a.txt").toList, action := ("created").toList,
             summary := some (("1 lines written").toList), edits := none }) ∧
    (∃ ce, changeFor (extractHandoff cfg0 c9log2 sid0 git0) (("b.txt").toList) =
        some ce ∧ ce.action = ("modified").toList) := by
  constructor
  · exact ((c9_last_write_edit_wins cfg0 c9log sid0 git0 (("a.txt").toList)).1
      { action := ("created").toList, summary := some (("1 lines written").toList),
        edits := none } (by decide)).1
  · exact (c9_last_write_edit_wins cfg0 c9log2 sid0 git0 (("b.txt").toList)).2
      (some { removed := ("x").toList, added := ("z").toList, replace_all := false })
      (by decide)

/-- Joining an append of two non-empty part lists inserts one newline. -/
theorem joinNL_append (l m : List Str) (hl : l ≠ []) (hm : m ≠ []) :
    joinNL (l ++ m) = joinNL l ++ '\n' :: joinNL m := by
  induction l with
  | nil => exact absurd rfl hl
  | cons x l ih =>
    cases l with
    | nil =>
      cases m with
      | nil => exact absurd rfl hm
      | cons y t => rfl
    | cons x2 l2 =>
      have h1 : joinNL ((x :: x2 :: l2) ++ m) =
          x ++ '\n' :: joinNL ((x2 :: l2) ++ m) := rfl
      have h2 : joinNL (x :: x2 :: l2) = x ++ '\n' :: joinNL (x2 :: l2) := rfl
      rw [h1, h2, ih (by simp)]
      simp [List.append_assoc]

/-- The narrative body is never empty (it starts with the export header). -/
theorem mdBodyParts_ne_nil (cfg : Config) (entries : List Entry) (sid : Str)
    (opts : Opts) (git : MdGit) : mdBodyParts cfg entries sid opts git ≠ [] := by
  unfold mdBodyParts
  simp

set_option maxRecDepth 40000 in
/-- C7, counterexample to the claim as stated: with records, session id and
configuration all fixed, the compact projection still changes when the
ambient git context read by `getGitContext()` changes between the two runs,
and the narrative projection still changes when the wall clock read by the
footer changes — both formatters perform I/O beyond their declared inputs. -/
theorem c7_formatters_read_ambient_state :
    extractHandoff cfg0 [] sid0 ⟨("main").toList, [], []⟩ ≠
      extractHandoff cfg0 [] sid0 ⟨("dev").toList, [], []⟩ ∧
    convertToMarkdown cfg0 [] sid0 opts0 mgit0 0 ≠
      convertToMarkdown cfg0 [] sid0 opts0 mgit0 60000 := by
  constructor
  · decide
  · decide

/-- C7, amended: each formatter is a deterministic pure function once the
ambient collaborator readings are included among its inputs — the compact
projection of (records, session id, configuration, git context), the
narrative projection of those plus the export-time clock reading; and the
narrative output depends on the clock only in the footer's exported-at
line. -/
theorem c7_clock_confined_to_footer (cfg : Config) (entries : List Entry) (sid : Str)
    (opts : Opts) (git : MdGit) :
    ∃ pre post : Str, ∀ now : Int,
      convertToMarkdown cfg entries sid opts git now =
        pre ++ formatTimestamp (some now) ++ post := by
  refine ⟨joinNL (mdBodyParts cfg entries sid opts git) ++
      '\n' :: '\n' :: (("---").toList ++ '\n' :: ("*Exported at ").toList),
    '*' :: '\n' :: (("*Export version: 2.0 (AI-optimized with tool results)*").toList ++
      '\n' :: ("*Tool: claude-export (https://github.com/stephenpham68/claude-export)*").toList),
    fun now => ?_⟩
  unfold convertToMarkdown
  rw [joinNL_append _ _ (mdBodyParts_ne_nil cfg entries sid opts git)
    (by simp [mdFooterParts])]
  unfold mdFooterParts
  have hfoot : joinNL
      [([] : Str), ("---").toList,
       ("*Exported at ").toList ++ formatTimestamp (some now) ++ [('*')],
       ("*Export version: 2.0 (AI-optimized with tool results)*").toList,
       ("*Tool: claude-export (https://github.com/stephenpham68/claude-export)*").toList] =
      '\n' :: (("---").toList ++ '\n' ::
        ((("*Exported at ").toList ++ formatTimestamp (some now) ++ [('*')]) ++ '\n' ::
          (("*Export version: 2.0 (AI-optimized with tool results)*").toList ++ '\n' ::
            ("*Tool: claude-export (https://github.com/stephenpham68/claude-export)*").toList))) :=
    rfl
  rw [hfoot]
  simp [List.append_assoc]
